import Mathlib

/-!
Verification of the x402 v2 payment protocol core against its specification.

The definitions below are a shallow embedding of the TypeScript sources:

* the `odp-deferred` EVM facilitator scheme (class `OdpDeferredEvmScheme`,
  methods `verify` and `settle`), its session store and helpers;
* the `fluxacredit` facilitator scheme (`FluxaCreditFacilitatorScheme`,
  function `deepEqual`);
* the HTTP message signature verifier (`verifyWebBotAuth` and its
  parsing helpers).

Modelling conventions, stated once here and referenced from doc comments:

* JavaScript `bigint` values arising from `BigInt(decimalString)` are
  modelled as `Nat`; `bigInt?` is the partial decimal-string conversion,
  `none` modelling a thrown `SyntaxError` (the protocol's wire format
  restricts the strings fed to `BigInt` to decimal digit strings, so the
  hexadecimal/octal/sign syntaxes of `BigInt` are outside the modelled
  input space).
* viem's `getAddress` (EIP-55 checksumming) only changes letter case and
  throws on malformed input; every use in this module feeds an equality
  comparison (`===` of two `getAddress` results, or `isAddressEqual`,
  which lowercases both sides), so it is modelled as ASCII lowercasing.
  The throw on malformed addresses is not modelled; malformed addresses
  merely widen the model's domain and no claim depends on them.
* `keccak256` is an injective external hash from viem; it is passed to the
  scheme operations as an explicit function parameter `keccak` and never
  interpreted.
* Asynchronous external collaborators (EIP-712 signature checks through
  the signer capability, debit-wallet `readContract` calls, the JWKS
  directory fetch, `Date.now`, `nacl` signature verification, SHA-256
  thumbprints) are modelled as oracle records supplied per call; the code
  under verification only branches on their results.
* The in-memory session store (`InMemoryOdpDeferredStore`) is modelled as
  a total function from session ids to optional records; `setSession` is
  pointwise update.  JavaScript aliasing of the stored record object is
  made explicit: the single in-place mutation that can precede a failure
  return (`sessionRecord.sessionSignature = sessionSignature`, scheme.ts
  line 285) is modelled as an immediate store update.
-/

set_option maxHeartbeats 1000000
set_option maxRecDepth 10000

/-- Lowercase an ASCII letter; other characters are unchanged.  Models
`String.prototype.toLowerCase` on the ASCII strings (addresses, hex ids)
this protocol manipulates. -/
def charLower (c : Char) : Char :=
  if 'A' ≤ c ∧ c ≤ 'Z' then Char.ofNat (c.toNat + 32) else c

/-- Model of viem's `getAddress`: see the conventions in the module header.
EIP-55 checksumming is injective up to letter case, and every comparison in
the embedded code compares two `getAddress`/`isAddressEqual` results, so
lowercasing yields the same truth value for every such comparison. -/
def getAddress (a : String) : String :=
  (a.data.map charLower).asString

/-- Model of viem's `isAddressEqual`, which compares addresses
case-insensitively. -/
def isAddressEqual (a b : String) : Bool :=
  getAddress a == getAddress b

/-- Decimal-digit accumulator: `decValAux cs acc` extends the value `acc`
with the digits `cs`, failing on the first non-digit character. -/
def decValAux : List Char → Nat → Option Nat
  | [], acc => some acc
  | c :: cs, acc =>
      if c.isDigit then decValAux cs (acc * 10 + (c.toNat - 48)) else none

/-- Model of JavaScript `BigInt(s)` on the protocol's decimal fragment:
`some` of the value for a (possibly empty, `BigInt("") = 0n`) string of
decimal digits, `none` (a thrown `SyntaxError`) otherwise. -/
def bigInt? (s : String) : Option Nat :=
  decValAux s.data 0

/-- Split a character list at every occurrence of `sep`, like
JavaScript `String.prototype.split` with a single-character separator. -/
def splitOnCharAux (sep : Char) : List Char → List Char → List (List Char)
  | [], acc => [acc.reverse]
  | c :: cs, acc =>
      if c = sep then acc.reverse :: splitOnCharAux sep cs []
      else splitOnCharAux sep cs (c :: acc)

/-- Split a character list on a separator character (JS `split`). -/
def splitOnChar (sep : Char) (l : List Char) : List (List Char) :=
  splitOnCharAux sep l []

/-- Model of `OdpDeferredEvmScheme.getChainId` (scheme.ts lines 804-811):
`network.split(":")[1]` converted with `Number(...)`; `none` models the
thrown error on a non-finite result.  `Number(undefined)` is `NaN` (no
second segment) and `Number("")` is `0`; non-decimal numeric syntaxes are
outside the CAIP-2 identifiers used here. -/
def getChainId? (network : String) : Option Nat :=
  match (splitOnChar ':' network.data).get? 1 with
  | none => none
  | some cs => if cs = [] then some 0 else decValAux cs 0

/-- Value of a hexadecimal digit character, if any. -/
def hexDigitVal? (c : Char) : Option Nat :=
  if '0' ≤ c ∧ c ≤ '9' then some (c.toNat - 48)
  else if 'a' ≤ c ∧ c ≤ 'f' then some (c.toNat - 87)
  else if 'A' ≤ c ∧ c ≤ 'F' then some (c.toNat - 55)
  else none

/-- Convert pairs of hex digits to bytes; fails on odd length or on a
non-hex character. -/
def hexPairsToBytes? : List Char → Option (List Nat)
  | [] => some []
  | c1 :: c2 :: rest =>
      match hexDigitVal? c1, hexDigitVal? c2, hexPairsToBytes? rest with
      | some h, some l, some bs => some ((h * 16 + l) :: bs)
      | _, _, _ => none
  | _ => none

/-- Bytes of a `0x`-prefixed hex string, as viem decodes it; `none` models
the throw on malformed input. -/
def hexToBytes? (s : String) : Option (List Nat) :=
  match s.data with
  | '0' :: 'x' :: rest => hexPairsToBytes? rest
  | _ => none

/-- Bytes of a 20-byte `address` value for `encodePacked`. -/
def addressBytes? (s : String) : Option (List Nat) :=
  match hexToBytes? s with
  | some bs => if bs.length = 20 then some bs else none
  | none => none

/-- Bytes of a `bytes32` value for `encodePacked`. -/
def bytes32Of? (s : String) : Option (List Nat) :=
  match hexToBytes? s with
  | some bs => if bs.length = 32 then some bs else none
  | none => none

/-- Big-endian byte expansion of `v` into `k` bytes. -/
def beBytesAux : Nat → Nat → List Nat
  | 0, _ => []
  | k + 1, v => beBytesAux k (v / 256) ++ [v % 256]

/-- Bytes of a `uint256` value for `encodePacked`; `none` models the viem
throw when the value does not fit in 256 bits. -/
def natToBe32? (v : Nat) : Option (List Nat) :=
  if v < 2 ^ 256 then some (beBytesAux 32 v) else none

/-- Model of `encodePacked(["bytes32","uint256","uint256","uint256"],
[sessionId, startNonce, endNonce, total])` from `settle` (scheme.ts lines
677-682). -/
def encodePackedSyn? (sessionId : String) (n0 n1 total : Nat) :
    Option (List Nat) :=
  match bytes32Of? sessionId, natToBe32? n0, natToBe32? n1, natToBe32? total with
  | some b, some x0, some x1, some xt => some (b ++ x0 ++ x1 ++ xt)
  | _, _, _, _ => none

/-- Insert a string into a sorted list (ascending). -/
def insertStr (s : String) : List String → List String
  | [] => [s]
  | t :: ts => if s ≤ t then s :: t :: ts else t :: insertStr s ts

/-- Insertion sort on strings, modelling JavaScript `Array.sort()` default
lexicographic order on the ASCII address strings used here. -/
def sortStrings : List String → List String
  | [] => []
  | s :: ss => insertStr s (sortStrings ss)

/-- Concatenate the packed 20-byte encodings of a list of addresses
(`encodePacked` over `address...` in `hashAuthorizedProcessors`). -/
def concatAddressBytes? : List String → Option (List Nat)
  | [] => some []
  | a :: rest =>
      match addressBytes? a, concatAddressBytes? rest with
      | some b, some bs => some (b ++ bs)
      | _, _ => none

/-- Zero hash constant from constants.ts. -/
def ZERO_BYTES32 : String :=
  "0x0000000000000000000000000000000000000000000000000000000000000000"

/-- Model of `hashAuthorizedProcessors` (utils.ts): zero hash for an absent
or empty list, otherwise keccak256 of the packed sorted lowercase
addresses.  `none` models a throw on a malformed address. -/
def hashAuthorizedProcessors? (keccak : List Nat → String)
    (addresses : Option (List String)) : Option String :=
  match addresses with
  | none => some ZERO_BYTES32
  | some l =>
      if l.isEmpty then some ZERO_BYTES32
      else
        match concatAddressBytes? (sortStrings (l.map getAddress)) with
        | some bytes => some (keccak bytes)
        | none => none

/-- Model of `normalizeRequestHash` (utils.ts): `requestHash ?? ZERO_BYTES32`. -/
def normalizeRequestHash (requestHash : Option String) : String :=
  requestHash.getD ZERO_BYTES32

/-- Receipt type `OdpDeferredReceipt` from types.ts: all fields are wire
strings. -/
structure OdpDeferredReceipt where
  sessionId : String
  nonce : String
  amount : String
  deadline : String
  requestHash : String
deriving DecidableEq

/-- Session approval type `OdpDeferredSessionApproval` from types.ts. -/
structure OdpDeferredSessionApproval where
  payer : String
  payee : String
  asset : String
  maxSpend : String
  expiry : String
  sessionId : String
  startNonce : String
  authorizedProcessorsHash : String
deriving DecidableEq

/-- Payload type `OdpDeferredEvmPayloadV2` from types.ts.  `receipt` and
`receiptSignature` are required by the TypeScript type but the scheme
re-checks their presence at runtime (the payload arrives through a cast),
so they are optional here. -/
structure OdpDeferredEvmPayloadV2 where
  sessionApproval : Option OdpDeferredSessionApproval
  sessionSignature : Option String
  receipt : Option OdpDeferredReceipt
  receiptSignature : Option String
deriving DecidableEq

/-- Session record type `OdpDeferredSessionRecord` from store.ts. -/
structure OdpDeferredSessionRecord where
  approval : OdpDeferredSessionApproval
  sessionSignature : Option String
  settlementContract : String
  nextNonce : Nat
  spent : Nat
  receipts : List OdpDeferredReceipt
  settling : Bool
deriving DecidableEq

/-- Parsed `requirements.extra` for the odp-deferred scheme
(`OdpDeferredExtras` in utils.ts).  The scheme's `verify`/`settle` also
read `extra.debitWallet` and `extra.withdrawDelaySeconds`, which the
scheme spec (`scheme_odp_deferred_evm.md`) lists as required extras, so
they are fields here.  The structure models the result of
`parseOdpDeferredExtras`; its `settlementContract` is therefore already
`getAddress`-canonical. -/
structure OdpDeferredExtras where
  sessionId : String
  startNonce : String
  maxSpend : String
  expiry : String
  settlementContract : String
  debitWallet : String
  withdrawDelaySeconds : String
  authorizedProcessors : Option (List String)
  requestHash : Option String
  maxAmountPerReceipt : Option String
deriving DecidableEq

/-- The fields of `PaymentRequirements` read by the odp-deferred scheme.
`extra` is modelled post-parse: `Except.error msg` is a
`parseOdpDeferredExtras` throw with message `msg` (scheme.ts lines
151-159), `Except.ok` the parsed extras. -/
structure PaymentRequirements where
  scheme : String
  network : String
  amount : String
  asset : String
  payTo : String
  maxTimeoutSeconds : Nat
  extra : Except String OdpDeferredExtras

/-- The `payload.accepted` fields read by the odp-deferred scheme. -/
structure AcceptedRef where
  scheme : String
  network : String
deriving DecidableEq

/-- The fields of `PaymentPayload` read by the odp-deferred scheme. -/
structure PaymentPayload where
  accepted : AcceptedRef
  payload : OdpDeferredEvmPayloadV2

/-- Wire shape of `VerifyResponse` from the core types. -/
structure VerifyResponse where
  isValid : Bool
  invalidReason : Option String
  payer : Option String
deriving DecidableEq

/-- Wire shape of `SettleResponse` from the core types. -/
structure SettleResponse where
  success : Bool
  errorReason : Option String
  transaction : String
  network : String
  payer : Option String
deriving DecidableEq

/-- Outcome of a `verify` call: a returned response, or a thrown
exception (propagated to the HTTP layer as a 500). -/
inductive VOut where
  | ok (r : VerifyResponse)
  | exn (msg : String)
deriving DecidableEq

/-- Outcome of a `settle` call: a returned response or a thrown
exception. -/
inductive SOut where
  | ok (r : SettleResponse)
  | exn (msg : String)
deriving DecidableEq

/-- The facilitator's session store, keyed by session id (the in-memory
`Map` of `InMemoryOdpDeferredStore`). -/
def OdpStore : Type := String → Option OdpDeferredSessionRecord

/-- Model of `store.setSession`. -/
def setSession (store : OdpStore) (sid : String)
    (r : OdpDeferredSessionRecord) : OdpStore :=
  fun id => if id = sid then some r else store id

/-- The store with no sessions. -/
def emptyOdpStore : OdpStore := fun _ => none

/-- Post-constructor configuration of `OdpDeferredEvmScheme` (scheme.ts
lines 104-116): `settlementContract` and `debitWallet` already passed
through `getAddress`, `settlementMode` defaulted to `"synthetic"`.
`signerAddresses` models `this.signer.getAddresses()`. -/
structure OdpDeferredEvmSchemeConfig where
  settlementContract : String
  debitWallet : String
  withdrawDelaySeconds : String
  settlementMode : String
  authorizedProcessors : Option (List String)
  maxReceiptsPerSettlement : Option Nat
  signerAddresses : List String

/-- Per-call oracle results for `verify`: the wall clock and the outcomes
of the signature checks and the debit-wallet reads. -/
structure VerifyOracles where
  now : Nat
  approvalSigValid : Bool
  receiptSigValid : Bool
  debitBalance : Nat
  debitWithdrawDelay : Nat

/-- Outcome of the on-chain settlement attempt in `settle`'s `"onchain"`
branch: a thrown error (its computed `errorReason`), or a mined
transaction hash with its receipt status. -/
inductive OnchainOutcome where
  | threw (reason : String)
  | mined (txHash : String) (status : String)

/-- Per-call oracle results for `settle`. -/
structure SettleOracles where
  debitBalance : Nat
  debitWithdrawDelay : Nat
  onchain : OnchainOutcome

/-- Model of `OdpDeferredEvmScheme.isAuthorizedProcessor` (scheme.ts lines
792-802). -/
def isAuthorizedProcessor (cfg : OdpDeferredEvmSchemeConfig)
    (authorizedProcessors : Option (List String)) : Bool :=
  match authorizedProcessors with
  | none => true
  | some l =>
      if l.isEmpty then true
      else
        (l.any fun allowed =>
          ((cfg.signerAddresses.map getAddress).any fun signer =>
            isAddressEqual signer allowed))

namespace OdpDeferredEvmScheme

/-- Early checks of `OdpDeferredEvmScheme.verify`, scheme.ts lines
137-201: scheme and network equality, extras parsing, receipt and
receipt-signature presence (JS truthiness: an empty string counts as
missing), session-id binding, and chain-parity of the configured
contracts. -/
def verifyChecks1 (cfg : OdpDeferredEvmSchemeConfig)
    (payload : PaymentPayload) (req : PaymentRequirements) :
    Except VerifyResponse (OdpDeferredExtras × OdpDeferredReceipt) :=
  if payload.accepted.scheme ≠ "odp-deferred" ∨ req.scheme ≠ "odp-deferred" then
    .error ⟨false, some "unsupported_scheme", none⟩
  else if payload.accepted.network ≠ req.network then
    .error ⟨false, some "network_mismatch", none⟩
  else
    match req.extra with
    | .error msg => .error ⟨false, some msg, none⟩
    | .ok extras =>
        match payload.payload.receipt with
        | none => .error ⟨false, some "invalid_odp_payload_missing_receipt", none⟩
        | some receipt =>
            if payload.payload.receiptSignature.getD "" = "" then
              .error ⟨false, some "missing_receipt_signature", none⟩
            else if receipt.sessionId ≠ extras.sessionId then
              .error ⟨false, some "session_id_mismatch", none⟩
            else if getAddress extras.settlementContract ≠ cfg.settlementContract then
              .error ⟨false, some "settlement_contract_mismatch", none⟩
            else if getAddress extras.debitWallet ≠ cfg.debitWallet then
              .error ⟨false, some "debit_wallet_mismatch", none⟩
            else if extras.withdrawDelaySeconds ≠ cfg.withdrawDelaySeconds then
              .error ⟨false, some "withdraw_delay_mismatch", none⟩
            else .ok (extras, receipt)

/-- Session-approval phase of `verify`, scheme.ts lines 207-294: look up
the session record; when the payload carries a `sessionApproval`, check the
session signature presence, the authorized-processors hash, the EIP-712
approval signature (oracle), and the binding to the requirements, then
either create a fresh record (lines 259-268, not yet persisted) or
reconcile every field against the stored approval (lines 269-282); the
in-place update `sessionRecord.sessionSignature = sessionSignature` (lines
284-286) on a stored record is modelled as an immediate store update.
Returns the local `approval` variable, the (possibly fresh) record, and
the store. -/
def sessionPhase (keccak : List Nat → String) (orc : VerifyOracles)
    (store : OdpStore) (payload : PaymentPayload) (req : PaymentRequirements)
    (extras : OdpDeferredExtras) (receipt : OdpDeferredReceipt) :
    Except VOut (OdpDeferredSessionApproval × OdpDeferredSessionRecord × OdpStore) :=
  let sid := receipt.sessionId
  match payload.payload.sessionApproval with
  | some sa =>
      match payload.payload.sessionSignature with
      | none => .error (VOut.ok ⟨false, some "missing_session_signature", none⟩)
      | some sig =>
          if sig = "" then
            .error (VOut.ok ⟨false, some "missing_session_signature", none⟩)
          else
            match hashAuthorizedProcessors? keccak extras.authorizedProcessors with
            | none => .error (VOut.exn "invalid_authorized_processor_address")
            | some expectedHash =>
                if sa.authorizedProcessorsHash ≠ expectedHash then
                  .error (VOut.ok ⟨false, some "authorized_processors_hash_mismatch", none⟩)
                else if ¬ orc.approvalSigValid then
                  .error (VOut.ok ⟨false, some "invalid_session_signature", none⟩)
                else if getAddress sa.payee ≠ getAddress req.payTo ∨
                    getAddress sa.asset ≠ getAddress req.asset ∨
                    sa.sessionId ≠ extras.sessionId ∨
                    sa.startNonce ≠ extras.startNonce ∨
                    sa.maxSpend ≠ extras.maxSpend ∨
                    sa.expiry ≠ extras.expiry then
                  .error (VOut.ok ⟨false, some "session_approval_mismatch", none⟩)
                else
                  match store sid with
                  | none =>
                      match bigInt? sa.startNonce with
                      | none => .error (VOut.exn "bigint_convert")
                      | some sn =>
                          .ok (sa, ⟨sa, some sig, extras.settlementContract, sn, 0, [], false⟩,
                               store)
                  | some r =>
                      if r.approval.sessionId ≠ sa.sessionId ∨
                          r.approval.startNonce ≠ sa.startNonce ∨
                          r.approval.maxSpend ≠ sa.maxSpend ∨
                          r.approval.expiry ≠ sa.expiry ∨
                          ¬ isAddressEqual r.approval.payee sa.payee ∨
                          ¬ isAddressEqual r.approval.asset sa.asset ∨
                          r.approval.authorizedProcessorsHash ≠ sa.authorizedProcessorsHash then
                        .error (VOut.ok ⟨false, some "session_approval_mismatch", none⟩)
                      else
                        let r' := { r with sessionSignature := some sig }
                        .ok (sa, r', setSession store sid r')
  | none =>
      match store sid with
      | none => .error (VOut.ok ⟨false, some "missing_session_approval", none⟩)
      | some r => .ok (r.approval, r, store)

/-- Per-receipt cap check of `verify`, scheme.ts lines 379-387: only
performed when `extras.maxAmountPerReceipt` is truthy (present and
nonempty). -/
def maxAmountCheck (extras : OdpDeferredExtras) (receipt : OdpDeferredReceipt)
    (payer : String) : Except VOut Unit :=
  match extras.maxAmountPerReceipt with
  | none => .ok ()
  | some cap =>
      if cap = "" then .ok ()
      else
        match bigInt? receipt.amount, bigInt? cap with
        | some a, some m =>
            if a > m then
              .error (VOut.ok ⟨false, some "receipt_amount_exceeds_max", some payer⟩)
            else .ok ()
        | _, _ => .error (VOut.exn "bigint_convert")

/-- Receipt-level checks of `verify`, part 1 (scheme.ts lines 296-323):
settlement-contract parity of the record, binding of the local approval to
the requirements, processor authorization. -/
def verifyPostChecksA (cfg : OdpDeferredEvmSchemeConfig)
    (approval : OdpDeferredSessionApproval) (record : OdpDeferredSessionRecord)
    (extras : OdpDeferredExtras) (req : PaymentRequirements) : Except VOut Unit :=
  if record.settlementContract ≠ extras.settlementContract then
    .error (VOut.ok ⟨false, some "settlement_contract_mismatch", some approval.payer⟩)
  else if approval.sessionId ≠ extras.sessionId ∨
      approval.startNonce ≠ extras.startNonce ∨
      approval.maxSpend ≠ extras.maxSpend ∨
      approval.expiry ≠ extras.expiry ∨
      ¬ isAddressEqual approval.payee (getAddress req.payTo) ∨
      ¬ isAddressEqual approval.asset (getAddress req.asset) then
    .error (VOut.ok ⟨false, some "requirements_session_mismatch", none⟩)
  else if ¬ isAuthorizedProcessor cfg extras.authorizedProcessors then
    .error (VOut.ok ⟨false, some "unauthorized_processor", none⟩)
  else .ok ()

/-- Receipt-level checks of `verify`, part 2 (scheme.ts lines 325-377):
debit-wallet withdraw-delay parity (oracle), session id, receipt signature
(oracle), nonce (string equality against `nextNonce.toString()`),
amount. -/
def verifyPostChecksB (orc : VerifyOracles)
    (approval : OdpDeferredSessionApproval) (record : OdpDeferredSessionRecord)
    (extras : OdpDeferredExtras) (receipt : OdpDeferredReceipt)
    (req : PaymentRequirements) : Except VOut Unit :=
  match bigInt? extras.withdrawDelaySeconds with
  | none => .error (VOut.exn "bigint_convert")
  | some wds =>
      if orc.debitWithdrawDelay ≠ wds then
        .error (VOut.ok ⟨false, some "debit_wallet_withdraw_delay_mismatch",
                         some approval.payer⟩)
      else if receipt.sessionId ≠ approval.sessionId then
        .error (VOut.ok ⟨false, some "session_id_mismatch", some approval.payer⟩)
      else if ¬ orc.receiptSigValid then
        .error (VOut.ok ⟨false, some "invalid_receipt_signature", some approval.payer⟩)
      else if receipt.nonce ≠ Nat.repr record.nextNonce then
        .error (VOut.ok ⟨false, some "receipt_nonce_mismatch", some approval.payer⟩)
      else if receipt.amount ≠ req.amount then
        .error (VOut.ok ⟨false, some "receipt_amount_mismatch", some approval.payer⟩)
      else .ok ()

/-- Receipt-level checks of `verify`, part 3 (scheme.ts lines 379-434):
per-receipt cap, deadline window, session expiry, request hash, spend cap,
balance.  On success returns the parsed receipt amount. -/
def verifyPostChecksC (orc : VerifyOracles)
    (approval : OdpDeferredSessionApproval) (record : OdpDeferredSessionRecord)
    (extras : OdpDeferredExtras) (receipt : OdpDeferredReceipt)
    (req : PaymentRequirements) : Except VOut Nat :=
  match OdpDeferredEvmScheme.maxAmountCheck extras receipt approval.payer with
  | .error v => .error v
  | .ok _ =>
      match bigInt? receipt.deadline, bigInt? approval.expiry with
      | some deadline, some expiry =>
          if deadline < orc.now ∨ deadline > orc.now + req.maxTimeoutSeconds ∨
              deadline > expiry then
            .error (VOut.ok ⟨false, some "receipt_deadline_invalid", some approval.payer⟩)
          else if expiry < orc.now then
            .error (VOut.ok ⟨false, some "session_expired", some approval.payer⟩)
          else if receipt.requestHash ≠ normalizeRequestHash extras.requestHash then
            .error (VOut.ok ⟨false, some "request_hash_mismatch", some approval.payer⟩)
          else
            match bigInt? receipt.amount, bigInt? approval.maxSpend with
            | some amt, some maxSpend =>
                if record.spent + amt > maxSpend then
                  .error (VOut.ok ⟨false, some "session_max_spend_exceeded",
                                   some approval.payer⟩)
                else if record.spent + amt > orc.debitBalance then
                  .error (VOut.ok ⟨false, some "insufficient_debit_wallet_balance",
                                   some approval.payer⟩)
                else .ok amt
            | _, _ => .error (VOut.exn "bigint_convert")
      | _, _ => .error (VOut.exn "bigint_convert")

/-- Receipt-level checks of `verify` (scheme.ts lines 296-434), the three
parts chained in source order. -/
def verifyPostChecks (cfg : OdpDeferredEvmSchemeConfig) (orc : VerifyOracles)
    (approval : OdpDeferredSessionApproval) (record : OdpDeferredSessionRecord)
    (extras : OdpDeferredExtras) (receipt : OdpDeferredReceipt)
    (req : PaymentRequirements) : Except VOut Nat :=
  match verifyPostChecksA cfg approval record extras req with
  | .error v => .error v
  | .ok _ =>
      match verifyPostChecksB orc approval record extras receipt req with
      | .error v => .error v
      | .ok _ => verifyPostChecksC orc approval record extras receipt req

/-- State update of `verify` around `verifyPostChecks` (scheme.ts lines
436-445): on success the record is updated (append receipt,
`spent += amount`, `nextNonce += 1`) and persisted via `setSession`, and
`{ isValid: true, payer }` is returned; a check failure returns its
response with the store untouched. -/
def verifyPost (cfg : OdpDeferredEvmSchemeConfig) (orc : VerifyOracles)
    (store1 : OdpStore) (approval : OdpDeferredSessionApproval)
    (record : OdpDeferredSessionRecord) (extras : OdpDeferredExtras)
    (receipt : OdpDeferredReceipt) (req : PaymentRequirements) :
    VOut × OdpStore :=
  match verifyPostChecks cfg orc approval record extras receipt req with
  | .error v => (v, store1)
  | .ok amt =>
      (VOut.ok ⟨true, none, some approval.payer⟩,
       setSession store1 receipt.sessionId
         { record with
             spent := record.spent + amt,
             nextNonce := record.nextNonce + 1,
             receipts := record.receipts ++ [receipt] })

/-- Model of `OdpDeferredEvmScheme.verify` (scheme.ts lines 131-446),
composed from the staged checks above in source order; `getChainId` (line
205) throws on a malformed network identifier before any store access. -/
def verify (cfg : OdpDeferredEvmSchemeConfig) (keccak : List Nat → String)
    (orc : VerifyOracles) (store : OdpStore) (payload : PaymentPayload)
    (req : PaymentRequirements) : VOut × OdpStore :=
  match verifyChecks1 cfg payload req with
  | .error r => (VOut.ok r, store)
  | .ok (extras, receipt) =>
      match getChainId? req.network with
      | none => (VOut.exn "invalid_network", store)
      | some _ =>
          match sessionPhase keccak orc store payload req extras receipt with
          | .error v => (v, store)
          | .ok (approval, record, store1) =>
              verifyPost cfg orc store1 approval record extras receipt req

/-- Result of the nonce-contiguity loop in `settle`, scheme.ts lines
578-589: all nonces match, a gap (semantic error), or a thrown `BigInt`
conversion error. -/
inductive ContigOut where
  | ok
  | gap
  | convErr
deriving DecidableEq

/-- The contiguity loop of `settle` (lines 578-589): parse each batch
nonce in order and compare with `startNonce + i`. -/
def contigCheck : List OdpDeferredReceipt → Nat → ContigOut
  | [], _ => .ok
  | r :: rs, expected =>
      match bigInt? r.nonce with
      | none => .convErr
      | some nv => if nv ≠ expected then .gap else contigCheck rs (expected + 1)

/-- Left fold of `settle`'s batch total (line 563), failing on the first
unparseable amount. -/
def sumAmountsAux : List OdpDeferredReceipt → Nat → Option Nat
  | [], acc => some acc
  | r :: rs, acc =>
      match bigInt? r.amount with
      | none => none
      | some a => sumAmountsAux rs (acc + a)

/-- Batch total `reduce((sum, entry) => sum + BigInt(entry.amount), 0n)`. -/
def sumAmounts? (l : List OdpDeferredReceipt) : Option Nat :=
  sumAmountsAux l 0

/-- The receipt filter of `settle` (lines 651-654 and 684-687): keep
entries whose nonce value is outside `[n0, n1]`; `none` models a `BigInt`
throw on an unparseable stored nonce. -/
def filterRange? (n0 n1 : Nat) : List OdpDeferredReceipt → Option (List OdpDeferredReceipt)
  | [] => some []
  | r :: rs =>
      match bigInt? r.nonce with
      | none => none
      | some nv =>
          match filterRange? n0 n1 rs with
          | none => none
          | some rest => some (if nv < n0 ∨ nv > n1 then r :: rest else rest)

/-- Last element of a nonempty list given as head and tail
(`batchReceipts[batchReceipts.length - 1]`). -/
def lastOf (x : OdpDeferredReceipt) : List OdpDeferredReceipt → OdpDeferredReceipt
  | [] => x
  | y :: ys => lastOf y ys

/-- Early checks of `OdpDeferredEvmScheme.settle`, scheme.ts lines
452-502: receipt presence, extras parsing, processor authorization, and
chain parity of debit wallet and withdraw delay. -/
def settleChecks1 (cfg : OdpDeferredEvmSchemeConfig)
    (payload : PaymentPayload) (req : PaymentRequirements) :
    Except SettleResponse (OdpDeferredExtras × OdpDeferredReceipt) :=
  let net := payload.accepted.network
  match payload.payload.receipt with
  | none => .error ⟨false, some "invalid_odp_payload_missing_receipt", "", net, none⟩
  | some receipt =>
      match req.extra with
      | .error msg => .error ⟨false, some msg, "", net, none⟩
      | .ok extras =>
          if ¬ isAuthorizedProcessor cfg extras.authorizedProcessors then
            .error ⟨false, some "unauthorized_processor", "", net, none⟩
          else if getAddress extras.debitWallet ≠ cfg.debitWallet then
            .error ⟨false, some "debit_wallet_mismatch", "", net, none⟩
          else if extras.withdrawDelaySeconds ≠ cfg.withdrawDelaySeconds then
            .error ⟨false, some "withdraw_delay_mismatch", "", net, none⟩
          else .ok (extras, receipt)

/-- Batch selection of `settle` (scheme.ts lines 528-535): the first
`maxReceiptsPerSettlement` receipts when that is configured positive,
otherwise the whole snapshot. -/
def settleBatch (cfg : OdpDeferredEvmSchemeConfig)
    (record : OdpDeferredSessionRecord) : List OdpDeferredReceipt :=
  match cfg.maxReceiptsPerSettlement with
  | some m => if 0 < m then record.receipts.take m else record.receipts
  | none => record.receipts

/-- Batch validation of `settle`'s `try` block (scheme.ts lines 528-589):
`no_receipts` on an empty batch, debit-wallet parity and balance
(oracles), batch total, first/last nonce parses, and the contiguity loop.
On success returns the batch head and tail, the first and last nonce
values and the total. -/
def settlePre (cfg : OdpDeferredEvmSchemeConfig) (orc : SettleOracles)
    (record : OdpDeferredSessionRecord) (extras : OdpDeferredExtras)
    (net : String) :
    Except SOut (OdpDeferredReceipt × List OdpDeferredReceipt × Nat × Nat × Nat) :=
  let payer := record.approval.payer
  match settleBatch cfg record with
  | [] => .error (SOut.ok ⟨false, some "no_receipts", "", net, some payer⟩)
  | b0 :: brest =>
      match bigInt? extras.withdrawDelaySeconds with
      | none => .error (SOut.exn "bigint_convert")
      | some wds =>
          if orc.debitWithdrawDelay ≠ wds then
            .error (SOut.ok ⟨false, some "debit_wallet_withdraw_delay_mismatch", "", net,
                             some payer⟩)
          else
            match sumAmounts? (b0 :: brest) with
            | none => .error (SOut.exn "bigint_convert")
            | some total =>
                if total > orc.debitBalance then
                  .error (SOut.ok ⟨false, some "insufficient_debit_wallet_balance", "", net,
                                   some payer⟩)
                else
                  match bigInt? b0.nonce with
                  | none => .error (SOut.exn "bigint_convert")
                  | some n0 =>
                      match bigInt? (lastOf b0 brest).nonce with
                      | none => .error (SOut.exn "bigint_convert")
                      | some n1 =>
                          match contigCheck (b0 :: brest) n0 with
                          | .convErr => .error (SOut.exn "bigint_convert")
                          | .gap =>
                              .error (SOut.ok ⟨false, some "receipt_nonce_gap", "", net,
                                               some payer⟩)
                          | .ok => .ok (b0, brest, n0, n1, total)

/-- Settlement execution of `settle` (scheme.ts lines 591-694): either the
on-chain call (outcome from the oracle; the inner `catch` turns any throw,
including one from the receipt filter, into an error response) or the
synthetic hash `keccak256(encodePacked(sessionId, startNonce, endNonce,
total))`; on success the session's receipts are filtered by the settled
nonce range.  Returns the outcome and the receipts the record holds
afterwards. -/
def settleExec (cfg : OdpDeferredEvmSchemeConfig) (keccak : List Nat → String)
    (orc : SettleOracles) (record : OdpDeferredSessionRecord)
    (receipt : OdpDeferredReceipt) (net : String) (n0 n1 total : Nat) :
    SOut × List OdpDeferredReceipt :=
  let payer := record.approval.payer
  if cfg.settlementMode = "onchain" then
    if record.sessionSignature.getD "" = "" then
      (SOut.ok ⟨false, some "missing_session_signature", "", net, some payer⟩,
       record.receipts)
    else
      match orc.onchain with
      | .threw reason => (SOut.ok ⟨false, some reason, "", net, some payer⟩, record.receipts)
      | .mined tx status =>
          if status ≠ "success" then
            (SOut.ok ⟨false, some "settlement_transaction_failed", tx, net, some payer⟩,
             record.receipts)
          else
            match filterRange? n0 n1 record.receipts with
            | none =>
                (SOut.ok ⟨false, some "bigint_convert", "", net, some payer⟩, record.receipts)
            | some rs => (SOut.ok ⟨true, none, tx, net, some payer⟩, rs)
  else
    match encodePackedSyn? receipt.sessionId n0 n1 total with
    | none => (SOut.exn "encode_packed_invalid", record.receipts)
    | some bytes =>
        match filterRange? n0 n1 record.receipts with
        | none => (SOut.exn "bigint_convert", record.receipts)
        | some rs => (SOut.ok ⟨true, none, keccak bytes, net, some payer⟩, rs)

/-- Body of `settle`'s `try` block (scheme.ts lines 527-694): batch
validation followed by settlement execution. -/
def settleBody (cfg : OdpDeferredEvmSchemeConfig) (keccak : List Nat → String)
    (orc : SettleOracles) (record : OdpDeferredSessionRecord)
    (extras : OdpDeferredExtras) (receipt : OdpDeferredReceipt) (net : String) :
    SOut × List OdpDeferredReceipt :=
  match settlePre cfg orc record extras net with
  | .error out => (out, record.receipts)
  | .ok (_, _, n0, n1, total) =>
      settleExec cfg keccak orc record receipt net n0 n1 total

/-- Model of `OdpDeferredEvmScheme.settle` (scheme.ts lines 448-699).
The early paths (through the `settling` lock check, lines 452-522) leave
the store untouched.  Once the lock is taken (lines 524-525), the `try`
body runs and the `finally` clause (lines 695-698) always persists the
record with `settling` cleared and the `settleBody` receipts; the
transient `settling = true` state is observable only concurrently and the
sequential model records the net effect of the call. -/
def settle (cfg : OdpDeferredEvmSchemeConfig) (keccak : List Nat → String)
    (orc : SettleOracles) (store : OdpStore) (payload : PaymentPayload)
    (req : PaymentRequirements) : SOut × OdpStore :=
  let net := payload.accepted.network
  match settleChecks1 cfg payload req with
  | .error r => (SOut.ok r, store)
  | .ok (extras, receipt) =>
      let sid := receipt.sessionId
      match store sid with
      | none => (SOut.ok ⟨false, some "session_not_found", "", net, none⟩, store)
      | some record =>
          if record.settling then
            (SOut.ok ⟨false, some "settlement_in_progress", "", net,
                      some record.approval.payer⟩, store)
          else
            let res := settleBody cfg keccak orc record extras receipt net
            (res.1, setSession store sid { record with receipts := res.2, settling := false })

end OdpDeferredEvmScheme

/-- One facilitator operation on the session store, carrying its own
per-call oracle results and inputs. -/
inductive OdpOp where
  | vrfy (orc : VerifyOracles) (payload : PaymentPayload) (req : PaymentRequirements)
  | stl (orc : SettleOracles) (payload : PaymentPayload) (req : PaymentRequirements)

/-- Store after one operation. -/
def stepStore (cfg : OdpDeferredEvmSchemeConfig) (keccak : List Nat → String)
    (store : OdpStore) : OdpOp → OdpStore
  | .vrfy orc payload req => (OdpDeferredEvmScheme.verify cfg keccak orc store payload req).2
  | .stl orc payload req => (OdpDeferredEvmScheme.settle cfg keccak orc store payload req).2

/-- Store after a sequence of operations, starting from the empty store. -/
def runOps (cfg : OdpDeferredEvmSchemeConfig) (keccak : List Nat → String)
    (ops : List OdpOp) : OdpStore :=
  ops.foldl (stepStore cfg keccak) emptyOdpStore

/-- Whether an operation is a `verify`. -/
def isVerifyOp : OdpOp → Bool
  | .vrfy _ _ _ => true
  | .stl _ _ _ => false

/-- The receipts `rs` carry the decimal nonces `v, v+1, v+2, …` in order. -/
def noncesFrom (v : Nat) : List OdpDeferredReceipt → Prop
  | [] => True
  | r :: rs => r.nonce = Nat.repr v ∧ noncesFrom (v + 1) rs

mutual
/-- JSON values as `deepEqual` (credit/facilitator/scheme.ts lines 12-27)
operates on them.  Numbers are modelled as integers: every number in the
protocol's wire messages is an integer (amounts are strings), and floats
are outside the modelled space.  Object fields are listed in insertion
order, as JavaScript enumerates them. -/
inductive Json where
  | null : Json
  | bool : Bool → Json
  | num : Int → Json
  | str : String → Json
  | arr : JsonList → Json
  | obj : JsonFields → Json

/-- A list of JSON values (mutual with `Json` so that all functions over
JSON are structurally recursive and kernel-evaluable). -/
inductive JsonList where
  | nil : JsonList
  | cons : Json → JsonList → JsonList

/-- The fields of a JSON object, in insertion order. -/
inductive JsonFields where
  | nil : JsonFields
  | cons : String → Json → JsonFields → JsonFields
end

/-- Insert a field into a key-sorted field list, keeping it sorted
(ascending by key). -/
def insertField (k : String) (v : Json) : JsonFields → JsonFields
  | .nil => .cons k v .nil
  | .cons k' v' rest =>
      if k ≤ k' then .cons k v (.cons k' v' rest)
      else .cons k' v' (insertField k v rest)

/-- Sort object fields by key (insertion sort), modelling
`Object.keys(obj).sort()` followed by rebuilding the object in sorted
order.  JavaScript's default sort on the ASCII keys used here is the
lexicographic order of `String`. -/
def sortFields : JsonFields → JsonFields
  | .nil => .nil
  | .cons k v rest => insertField k v (sortFields rest)

mutual
/-- The local `normalize` of `deepEqual` (scheme.ts lines 14-22): sort
object keys recursively, keep arrays in order.  The source sorts the keys
and then normalizes each value; here values are normalized first and the
fields then sorted, which yields the same list because the sort compares
keys only.  (Named `Json.normalize` because plain `normalize` is taken by
Mathlib.) -/
def Json.normalize : Json → Json
  | .null => .null
  | .bool b => .bool b
  | .num n => .num n
  | .str s => .str s
  | .arr xs => .arr (Json.normalizeList xs)
  | .obj fs => .obj (sortFields (Json.normalizeFields fs))

/-- Pointwise `normalize` over an array. -/
def Json.normalizeList : JsonList → JsonList
  | .nil => .nil
  | .cons x xs => .cons (Json.normalize x) (Json.normalizeList xs)

/-- Pointwise `normalize` over object fields. -/
def Json.normalizeFields : JsonFields → JsonFields
  | .nil => .nil
  | .cons k v rest => .cons k (Json.normalize v) (Json.normalizeFields rest)
end

/-- Escape a string body as `JSON.stringify` does for the quote and
backslash characters.  `JSON.stringify` additionally escapes control
characters; the protocol's strings contain none, and any injective
escaping yields the same `deepEqual` truth value, which is all the
embedded code observes. -/
def escChars : List Char → List Char
  | [] => []
  | c :: cs => if c = '"' ∨ c = '\\' then '\\' :: c :: escChars cs else c :: escChars cs

mutual
/-- Characters of `JSON.stringify` output: no whitespace, `"k":v` fields,
comma-separated array elements and fields. -/
def jChars : Json → List Char
  | .null => "null".data
  | .bool true => "true".data
  | .bool false => "false".data
  | .num n => (Int.repr n).data
  | .str s => '"' :: (escChars s.data ++ ['"'])
  | .arr xs => '[' :: (jCharsList xs ++ [']'])
  | .obj fs => Char.ofNat 123 :: (jCharsFields fs ++ [Char.ofNat 125])

/-- Comma-joined stringification of array elements. -/
def jCharsList : JsonList → List Char
  | .nil => []
  | .cons x .nil => jChars x
  | .cons x (.cons y ys) => jChars x ++ ',' :: jCharsList (.cons y ys)

/-- Comma-joined stringification of object fields. -/
def jCharsFields : JsonFields → List Char
  | .nil => []
  | .cons k v .nil => '"' :: (escChars k.data ++ '"' :: ':' :: jChars v)
  | .cons k v (.cons k' v' rest) =>
      ('"' :: (escChars k.data ++ '"' :: ':' :: jChars v)) ++
        ',' :: jCharsFields (.cons k' v' rest)
end

/-- Model of `JSON.stringify` on the JSON values above. -/
def stringify (j : Json) : String :=
  (jChars j).asString

/-- Model of `deepEqual` (credit/facilitator/scheme.ts lines 12-27):
stringify both sides after recursive key-sorting and compare the strings.
The `catch` branch is unreachable on JSON values (stringify throws only on
`BigInt` values or circular references). -/
def deepEqual (a b : Json) : Bool :=
  stringify (Json.normalize a) == stringify (Json.normalize b)

mutual
/-- Modelled from the spec: the normalization in "payload.accepted must
deep-equal requirements (normalize maps by key-sorting recursively; arrays
retain order)" — written from the spec's words, for comparison with the
implementation's `deepEqual`. -/
def specNormalize : Json → Json
  | .null => .null
  | .bool b => .bool b
  | .num n => .num n
  | .str s => .str s
  | .arr xs => .arr (specNormalizeList xs)
  | .obj fs => .obj (sortFields (specNormalizeFields fs))

/-- Modelled from the spec: arrays retain their order, elements normalized
recursively. -/
def specNormalizeList : JsonList → JsonList
  | .nil => .nil
  | .cons x xs => .cons (specNormalize x) (specNormalizeList xs)

/-- Modelled from the spec: map entries keep their keys, values normalized
recursively (the enclosing object is key-sorted). -/
def specNormalizeFields : JsonFields → JsonFields
  | .nil => .nil
  | .cons k v rest => .cons k (specNormalize v) (specNormalizeFields rest)
end

/-- Modelled from the spec: two JSON documents are deep-equal when they
normalize (recursive key-sorting, arrays in order) to the same value. -/
def specDeepEqual (a b : Json) : Prop :=
  specNormalize a = specNormalize b

/-- Inputs of `verifyWebBotAuth` (webBotAuthVerifier.ts `VerifyInput`). -/
structure VerifyInput where
  signatureAgent : String
  signatureInput : String
  signature : String
  method : String
  url : String
  paymentSignatureHeader : String

/-- Result type of `verifyWebBotAuth` (`VerifyResult`). -/
structure VerifyResult where
  ok : Bool
  thumbprint : Option String
  error : Option String
deriving DecidableEq

/-- Parsed `Signature-Input` header (`ParsedSigInput`). -/
structure ParsedSigInput where
  label : String
  components : List String
  params : List (String × String)
  rawParamsSection : String
deriving DecidableEq

/-- A JSON Web Key as read from the directory (`kty`, `crv`, `x`). -/
structure Jwk where
  kty : String
  crv : String
  x : String

/-- Per-call oracles of `verifyWebBotAuth`: the wall clock, the outcome of
the JWKS directory fetch (`Except.error` models a throw from `fetchJwks`,
`Except.ok` the `jwks?.keys || []` list), the RFC 7638 SHA-256 thumbprint
(`jwkThumbprintEd25519`, an injective pure hash, left abstract), and
`nacl.sign.detached.verify` applied to (base, signature base64, public key
`x`). -/
structure WbaEnv where
  now : Int
  jwksResult : Except String (List Jwk)
  thumbOf : Jwk → String
  naclVerify : String → String → String → Bool

/-- JavaScript whitespace recognized by `String.prototype.trim` (the
subset occurring in headers). -/
def isJsSpace (c : Char) : Bool :=
  c = ' ' ∨ c = '\t' ∨ c = '\n' ∨ c = '\r' ∨ c = '\x0b' ∨ c = '\x0c'

/-- Model of `trim`: drop whitespace from both ends. -/
def trimChars (l : List Char) : List Char :=
  ((l.dropWhile isJsSpace).reverse.dropWhile isJsSpace).reverse

/-- Split at the first occurrence of `sep` (JS `indexOf` plus two
`slice`s); `none` when `sep` does not occur. -/
def splitAtFirst (sep : Char) : List Char → Option (List Char × List Char)
  | [] => none
  | c :: cs =>
      if c = sep then some ([], cs)
      else (splitAtFirst sep cs).map (fun p => (c :: p.1, p.2))

/-- Read a quoted component body up to the closing quote (JS
`indexOf('"', i + 1)`); `none` models the thrown error when the quote is
unterminated. -/
def parseCompsQuoted : List Char → List Char → Option (String × List Char)
  | [], _ => none
  | c :: cs, acc =>
      if c = '"' then some (acc.reverse.asString, cs) else parseCompsQuoted cs (c :: acc)

/-- The component-splitting loop of `parseSignatureInput`
(webBotAuthVerifier.ts lines 65-88): skip spaces; a quoted component runs
to the closing quote, any other token (including derived `@`-names) to the
next space.  Fuelled so that the recursion is structural; the fuel is set
to the input length plus one, which the loop never exhausts since every
step consumes at least one character. -/
def parseCompsAux : Nat → List Char → Option (List String)
  | 0, _ => none
  | _, [] => some []
  | fuel + 1, c :: cs =>
      if c = ' ' then parseCompsAux fuel cs
      else if c = '"' then
        match parseCompsQuoted cs [] with
        | none => none
        | some (s, rest) => (parseCompsAux fuel rest).map (s :: ·)
      else
        (parseCompsAux fuel (cs.dropWhile (· ≠ ' '))).map
          (fun l => (c :: cs.takeWhile (· ≠ ' ')).asString :: l)

/-- Component list of a `Signature-Input` components section. -/
def parseComps (l : List Char) : Option (List String) :=
  parseCompsAux (l.length + 1) l

/-- Strip one layer of surrounding double quotes when present on both
ends (JS `startsWith('"') && endsWith('"')` then `slice(1, -1)`). -/
def stripQuotes (v : List Char) : List Char :=
  match v with
  | [] => []
  | c :: cs =>
      if c = '"' ∧ (c :: cs).getLast? = some '"' then ((c :: cs).drop 1).dropLast
      else c :: cs

/-- One `;`-separated parameter: split at the first `=` (entries without
`=` are skipped), trim, unquote the value. -/
def parseParam (p : List Char) : Option (String × String) :=
  match splitAtFirst '=' p with
  | none => none
  | some (k, v) => some ((trimChars k).asString, (stripQuotes (trimChars v)).asString)

/-- Parameter lookup with JavaScript object-assignment semantics: the
last occurrence of a key wins. -/
def paramsGet (ps : List (String × String)) (k : String) : Option String :=
  ps.foldl (fun acc kv => if kv.1 = k then some kv.2 else acc) none

/-- Model of `parseSignatureInput` (webBotAuthVerifier.ts lines 52-102):
label up to the first `=`, components between the first `(` and the first
`)`, parameters after the `)` split on `;`; `Except.error` carries the
thrown message. -/
def parseSignatureInput (input : String) : Except String ParsedSigInput :=
  match splitAtFirst '=' input.data with
  | none => .error "invalid_signature_input"
  | some (before, after) =>
      let label := (trimChars before).asString
      let rest := trimChars after
      match rest.findIdx? (· = '('), rest.findIdx? (· = ')') with
      | some o, some c =>
          if c < o then .error "invalid_signature_input_components"
          else
            let compStr := trimChars ((rest.drop (o + 1)).take (c - (o + 1)))
            let rawParamsSection := (trimChars (rest.drop o)).asString
            match parseComps compStr with
            | none => .error "invalid_signature_input_components_quote"
            | some comps =>
                let paramStr := trimChars (rest.drop (c + 1))
                let parts := ((splitOnChar ';' paramStr).map trimChars).filter (· ≠ [])
                .ok ⟨label, comps, parts.filterMap parseParam, rawParamsSection⟩
      | _, _ => .error "invalid_signature_input_components"

/-- Characters allowed in the base64 signature value
(regex `[A-Za-z0-9+/=]`). -/
def isBase64Char (c : Char) : Bool :=
  c.isAlpha ∨ c.isDigit ∨ c = '+' ∨ c = '/' ∨ c = '='

/-- Model of `parseSignatureHeader` (webBotAuthVerifier.ts lines
147-157): `label=:BASE64:`; returns the label and the base64 payload
(decoding to bytes is deferred to the `naclVerify` oracle). -/
def parseSignatureHeader (signature : String) : Except String (String × String) :=
  match splitAtFirst '=' signature.data with
  | none => .error "invalid_signature_header"
  | some (before, after) =>
      let label := (trimChars before).asString
      match trimChars after with
      | ':' :: more =>
          match more.getLast? with
          | some ':' =>
              let mid := more.dropLast
              if mid ≠ [] ∧ mid.all isBase64Char then .ok (label, mid.asString)
              else .error "invalid_signature_value"
          | _ => .error "invalid_signature_value"
      | _ => .error "invalid_signature_value"

/-- Nat value of the leading digit run, if nonempty (the digit-prefix
semantics of `parseInt(s, 10)`). -/
def digitsPrefixVal (l : List Char) : Option Nat :=
  match l.takeWhile Char.isDigit with
  | [] => none
  | ds => decValAux ds 0

/-- Model of `parseInt(s, 10)`: skip leading whitespace, optional sign,
then the longest digit prefix; `none` is `NaN`. -/
def parseIntDec? (s : String) : Option Int :=
  match s.data.dropWhile isJsSpace with
  | '-' :: rest => (digitsPrefixVal rest).map (fun v => -(v : Int))
  | '+' :: rest => (digitsPrefixVal rest).map (fun v => (v : Int))
  | l => (digitsPrefixVal l).map (fun v => (v : Int))

/-- First occurrence of `://` (scheme separator) in a URL. -/
def afterScheme? : List Char → Option (List Char)
  | ':' :: '/' :: '/' :: rest => some rest
  | _ :: cs => afterScheme? cs
  | [] => none

/-- Model of `new URL(url).host`: the characters between `://` and the
first `/`, `?` or `#`; `none` models the constructor throw.  This is an
approximation of WHATWG URL parsing sufficient here: the host only feeds
the `@authority` line of the signature base, which the claims never
inspect. -/
def extractHost? (url : String) : Option String :=
  match afterScheme? url.data with
  | none => none
  | some rest =>
      match rest.takeWhile (fun c => ¬ (c = '/' ∨ c = '?' ∨ c = '#')) with
      | [] => none
      | host => some host.asString

/-- Lowercase a string (JS `toLowerCase` on ASCII header names). -/
def lowerStr (s : String) : String :=
  (s.data.map charLower).asString

/-- The signature-base lines of `buildSignatureBase` (webBotAuthVerifier.ts
lines 130-145): `@authority` uses the URL host, any other component is
lowercased and looked up in the two-entry signed-header map
(`payment-signature`, `signature-agent`); a miss throws
`missing_header:<name>`. -/
def componentLines (psh sa authority : String) : List String → Except String (List String)
  | [] => .ok []
  | c :: cs =>
      if c = "@authority" then
        (componentLines psh sa authority cs).map
          (fun ls => ("\"@authority\": " ++ authority) :: ls)
      else
        let name := lowerStr c
        if name = "payment-signature" then
          (componentLines psh sa authority cs).map
            (fun ls => ("\"payment-signature\": " ++ psh) :: ls)
        else if name = "signature-agent" then
          (componentLines psh sa authority cs).map
            (fun ls => ("\"signature-agent\": " ++ sa) :: ls)
        else .error ("missing_header:" ++ name)

/-- Join lines with `\n` and no trailing newline. -/
def joinNl : List String → String
  | [] => ""
  | [s] => s
  | s :: s' :: rest => s ++ "\n" ++ joinNl (s' :: rest)

/-- First directory key passing the JS loop's filters (`kty == "OKP"`,
`crv == "Ed25519"`, truthy `x`) whose thumbprint equals `keyid`; returns
its `x` (the public key material handed to nacl). -/
def findKey (thumbOf : Jwk → String) (keyid? : Option String) : List Jwk → Option String
  | [] => none
  | k :: ks =>
      if k.kty = "OKP" ∧ k.crv = "Ed25519" ∧ k.x ≠ "" ∧ some (thumbOf k) = keyid? then
        some k.x
      else findKey thumbOf keyid? ks

/-- Model of `verifyWebBotAuth` (webBotAuthVerifier.ts lines 159-209) in
source order: parse `Signature-Input`; require `tag == "web-bot-auth"`;
require the three covered components; parse the `Signature` header and
match labels; when both `created` and `expires` are truthy (present,
nonempty, parsing to a nonzero number), enforce the 60-second window with
±60 s skew; build the signature base; fetch the directory and select the
key by thumbprint; verify the detached signature.  The surrounding
`try/catch` turns any thrown message into `{ ok: false, error }`, which is
how the `Except.error` branches read. -/
def verifyWebBotAuth (env : WbaEnv) (input : VerifyInput) : VerifyResult :=
  match parseSignatureInput input.signatureInput with
  | .error msg => ⟨false, none, some msg⟩
  | .ok parsed =>
      if paramsGet parsed.params "tag" ≠ some "web-bot-auth" then
        ⟨false, none, some "invalid_tag"⟩
      else if ¬ parsed.components.contains "payment-signature" then
        ⟨false, none, some "missing_component_payment-signature"⟩
      else if ¬ parsed.components.contains "signature-agent" then
        ⟨false, none, some "missing_component_signature-agent"⟩
      else if ¬ parsed.components.contains "@authority" then
        ⟨false, none, some "missing_component_@authority"⟩
      else
        match parseSignatureHeader input.signature with
        | .error msg => ⟨false, none, some msg⟩
        | .ok (label, sigB64) =>
            if label ≠ parsed.label then ⟨false, none, some "label_mismatch"⟩
            else
              let created? :=
                match paramsGet parsed.params "created" with
                | some s => if s = "" then none else parseIntDec? s
                | none => none
              let expires? :=
                match paramsGet parsed.params "expires" with
                | some s => if s = "" then none else parseIntDec? s
                | none => none
              let windowErr : Option VerifyResult :=
                match created?, expires? with
                | some c, some e =>
                    if c ≠ 0 ∧ e ≠ 0 then
                      if e - c > 60 then some ⟨false, none, some "window_too_long"⟩
                      else if env.now < c - 60 ∨ env.now > e + 60 then
                        some ⟨false, none, some "expired_or_not_yet_valid"⟩
                      else none
                    else none
                | _, _ => none
              match windowErr with
              | some r => r
              | none =>
                  match extractHost? input.url with
                  | none => ⟨false, none, some "Invalid URL"⟩
                  | some authority =>
                      match componentLines input.paymentSignatureHeader
                          input.signatureAgent authority parsed.components with
                      | .error msg => ⟨false, none, some msg⟩
                      | .ok lines =>
                          let base := joinNl (lines ++
                            ["\"@signature-params\": " ++ parsed.rawParamsSection])
                          match env.jwksResult with
                          | .error msg => ⟨false, none, some msg⟩
                          | .ok keys =>
                              let keyid? := paramsGet parsed.params "keyid"
                              match findKey env.thumbOf keyid? keys with
                              | none => ⟨false, none, some "key_not_found"⟩
                              | some pubX =>
                                  if env.naclVerify base sigB64 pubX then ⟨true, keyid?, none⟩
                                  else ⟨false, none, some "signature_verify_failed"⟩

/-- The `extensions["web-bot-auth"]` entry of a credit-scheme payload. -/
structure WebBotAuthExt where
  signatureAgent : Option String
  signatureInput : Option String
  signature : Option String
  paymentSignatureHeader : Option String

/-- The fields of a credit-scheme `PaymentPayload` read by
`FluxaCreditFacilitatorScheme.verify`: `accepted` as a raw JSON document
(it is compared with `deepEqual`), the web-bot-auth extension (absent
models a missing `extensions` object or key), `resource?.url`, and
`payload["signature-fluxa-ai-agent-id"]`. -/
structure FluxaPaymentPayload where
  accepted : Json
  extensions : Option WebBotAuthExt
  resourceUrl : Option String
  agentId : Option String

namespace FluxaCreditFacilitatorScheme

/-- Model of `FluxaCreditFacilitatorScheme.verify`
(credit/facilitator/scheme.ts lines 47-77).  `fallbackHeader` models
`Buffer.from(JSON.stringify(paymentPayload)).toString("base64url")`, the
re-encoded header used when the raw `PAYMENT-SIGNATURE` bytes were not
passed through; it only feeds the signature base.  The second component of
the result is instrumentation recording whether `verifyWebBotAuth` was
invoked. -/
def verify (env : WbaEnv) (fallbackHeader : String) (payload : FluxaPaymentPayload)
    (requirements : Json) : VerifyResponse × Bool :=
  if ¬ deepEqual payload.accepted requirements then
    (⟨false, some "requirements_mismatch", none⟩, false)
  else
    match payload.extensions with
    | none => (⟨false, some "invalid_web_bot_auth", none⟩, false)
    | some wba =>
        if wba.signatureAgent.getD "" = "" ∨ wba.signatureInput.getD "" = "" ∨
            wba.signature.getD "" = "" then
          (⟨false, some "invalid_web_bot_auth", none⟩, false)
        else
          let psh :=
            match wba.paymentSignatureHeader with
            | some h => if h = "" then fallbackHeader else h
            | none => fallbackHeader
          let v := verifyWebBotAuth env
            ⟨wba.signatureAgent.getD "", wba.signatureInput.getD "",
             wba.signature.getD "", "GET", payload.resourceUrl.getD "", psh⟩
          if ¬ v.ok then (⟨false, v.error, none⟩, true)
          else
            let payer :=
              match v.thumbprint with
              | some t => if t = "" then payload.agentId.getD "" else t
              | none => payload.agentId.getD ""
            (⟨true, none, some payer⟩, true)

end FluxaCreditFacilitatorScheme

/-- The session-state fields tracked by the spec's mutation rules:
`(nextNonce, spent, receipts)`. -/
def tracked (r : OdpDeferredSessionRecord) :
    Nat × Nat × List OdpDeferredReceipt :=
  (r.nextNonce, r.spent, r.receipts)

/-- `tracked` lifted to an optional record. -/
def trackedOpt (r : Option OdpDeferredSessionRecord) :
    Option (Nat × Nat × List OdpDeferredReceipt) :=
  r.map tracked

/-- Invariant of a stored session record: the start nonce parses to `s`,
the stored receipts carry the contiguous decimal nonces
`v, v+1, …, nextNonce - 1` for some `v ≥ s`, the gross spend respects
`maxSpend` whenever the latter parses, and no settlement is marked in
flight. -/
def SessionInv (r : OdpDeferredSessionRecord) : Prop :=
  ∃ s v, bigInt? r.approval.startNonce = some s ∧ s ≤ v ∧
    v + r.receipts.length = r.nextNonce ∧ noncesFrom v r.receipts ∧
    (∀ m, bigInt? r.approval.maxSpend = some m → r.spent ≤ m) ∧
    r.settling = false

/-- Strengthened invariant holding while no settlement has removed
receipts: the stored nonces start exactly at `approval.startNonce`. -/
def SessionInvV (r : OdpDeferredSessionRecord) : Prop :=
  ∃ s, bigInt? r.approval.startNonce = some s ∧
    s + r.receipts.length = r.nextNonce ∧ noncesFrom s r.receipts

/-- `SessionInv` for every stored record. -/
def StoreInv (store : OdpStore) : Prop :=
  ∀ sid r, store sid = some r → SessionInv r

/-- `SessionInvV` for every stored record. -/
def StoreInvV (store : OdpStore) : Prop :=
  ∀ sid r, store sid = some r → SessionInvV r

/-- Concrete facilitator configuration used by the witnesses: synthetic
settlement, no processor allow-list, no batch cap. -/
def cfgA : OdpDeferredEvmSchemeConfig :=
  ⟨"0xsc", "0xdw", "86400", "synthetic", none, none, ["0xfac"]⟩

/-- Concrete stand-in for viem's keccak256 in the witnesses. -/
def keccakA : List Nat → String := fun _ => "0xhash"

/-- Concrete 32-byte session id. -/
def sessIdA : String :=
  "0x00000000000000000000000000000000000000000000000000000000000000a1"

/-- Concrete receipt with the given nonce: amount 15000, deadline inside
the window, zero request hash. -/
def rcptA (n : String) : OdpDeferredReceipt :=
  ⟨sessIdA, n, "15000", "1740672160", ZERO_BYTES32⟩

/-- Concrete session approval: startNonce 0, maxSpend 1000000. -/
def approvalA : OdpDeferredSessionApproval :=
  ⟨"0xpayer", "0xpayee", "0xasset", "1000000", "1740673000", sessIdA, "0", ZERO_BYTES32⟩

/-- Concrete odp-deferred extras matching `cfgA` and `approvalA`. -/
def extrasA : OdpDeferredExtras :=
  ⟨sessIdA, "0", "1000000", "1740673000", "0xsc", "0xdw", "86400", none, none, none⟩

/-- Concrete requirements matching `extrasA`: amount 15000. -/
def reqA : PaymentRequirements :=
  ⟨"odp-deferred", "eip155:84532", "15000", "0xasset", "0xpayee", 600, .ok extrasA⟩

/-- Concrete verify oracles: clock inside the receipt window, valid
signatures, ample balance, matching withdraw delay. -/
def orcA : VerifyOracles :=
  ⟨1740672000, true, true, 1000000000, 86400⟩

/-- Concrete settle oracles. -/
def orcSA : SettleOracles :=
  ⟨1000000000, 86400, .mined "" ""⟩

/-- Opening payload: session approval plus the receipt with nonce `n`. -/
def payloadOpenA (n : String) : PaymentPayload :=
  ⟨⟨"odp-deferred", "eip155:84532"⟩,
   ⟨some approvalA, some "0xsig", some (rcptA n), some "0xrsig"⟩⟩

/-- Follow-up payload: receipt with nonce `n`, no approval attached. -/
def payloadNextA (n : String) : PaymentPayload :=
  ⟨⟨"odp-deferred", "eip155:84532"⟩, ⟨none, none, some (rcptA n), some "0xrsig"⟩⟩

/-- Operation list of the C3 counterexample: open the session with receipt
0, settle the batch (removing receipt 0), then accept receipt 1. -/
def opsC3 : List OdpOp :=
  [.vrfy orcA (payloadOpenA "0") reqA,
   .stl orcSA (payloadNextA "0") reqA,
   .vrfy orcA (payloadNextA "1") reqA]

/-- Stored session used by the C2 witness: receipt 0 accepted, next nonce
1. -/
def recE : OdpDeferredSessionRecord :=
  ⟨approvalA, some "0xsig", "0xsc", 1, 15000, [rcptA "0"], false⟩

/-- Stored session used by the C5 witness: receipts 0-4 accepted, spent
75000. -/
def recC5 : OdpDeferredSessionRecord :=
  ⟨approvalA, some "0xsig", "0xsc", 5, 75000,
   [rcptA "0", rcptA "1", rcptA "2", rcptA "3", rcptA "4"], false⟩

/-- Stored session used by the C6 witness: a settlement is in flight. -/
def recC6 : OdpDeferredSessionRecord :=
  ⟨approvalA, some "0xsig", "0xsc", 5, 75000, [rcptA "0"], true⟩

/-- Approval for the over-spend scenario S6: maxSpend 30000. -/
def approvalB : OdpDeferredSessionApproval :=
  ⟨"0xpayer", "0xpayee", "0xasset", "30000", "1740673000", sessIdA, "0", ZERO_BYTES32⟩

/-- Extras for the over-spend scenario S6. -/
def extrasB : OdpDeferredExtras :=
  ⟨sessIdA, "0", "30000", "1740673000", "0xsc", "0xdw", "86400", none, none, none⟩

/-- Requirements for the over-spend scenario S6. -/
def reqB : PaymentRequirements :=
  ⟨"odp-deferred", "eip155:84532", "15000", "0xasset", "0xpayee", 600, .ok extrasB⟩

/-- Opening payload of scenario S6. -/
def payloadOpenB : PaymentPayload :=
  ⟨⟨"odp-deferred", "eip155:84532"⟩,
   ⟨some approvalB, some "0xsig", some (rcptA "0"), some "0xrsig"⟩⟩

/-- The first two (accepted) operations of scenario S6. -/
def opsB2 : List OdpOp :=
  [.vrfy orcA payloadOpenB reqB, .vrfy orcA (payloadNextA "1") reqB]

/-- Small JSON object used by the C7 witness. -/
def jsonReqA : Json :=
  .obj (.cons "amount" (.str "25") (.cons "scheme" (.str "fluxacredit") .nil))

/-- The same JSON object with the fields in the other insertion order. -/
def jsonReqA' : Json :=
  .obj (.cons "scheme" (.str "fluxacredit") (.cons "amount" (.str "25") .nil))

/-- A JSON object differing from `jsonReqA` in one value. -/
def jsonReqB : Json :=
  .obj (.cons "amount" (.str "26") (.cons "scheme" (.str "fluxacredit") .nil))

/-- Web-bot-auth environment for the witnesses: one Ed25519 key whose
thumbprint is `k1`, all signatures verify. -/
def envW : WbaEnv :=
  ⟨1000000, .ok [⟨"OKP", "Ed25519", "eHg"⟩], fun _ => "k1", fun _ _ _ => true⟩

/-- Signature-Input fixture: all three components, created = now - 60,
expires = created + 60. -/
def sigInputOk : String :=
  "sig1=(\"payment-signature\" \"signature-agent\" \"@authority\");created=999940;expires=1000000;keyid=\"k1\";alg=\"ed25519\";tag=\"web-bot-auth\""

/-- Signature-Input fixture: created = now - 61 with expires = created + 60
(accepted by the code). -/
def sigInputLate : String :=
  "sig1=(\"payment-signature\" \"signature-agent\" \"@authority\");created=999939;expires=999999;keyid=\"k1\";tag=\"web-bot-auth\""

/-- Signature-Input fixture: created = now - 61 with expires = created
(rejected: now exceeds expires + 60). -/
def sigInputExpired : String :=
  "sig1=(\"payment-signature\" \"signature-agent\" \"@authority\");created=999939;expires=999939;keyid=\"k1\";tag=\"web-bot-auth\""

/-- Signature-Input fixture with the `payment-signature` component
missing. -/
def sigInputNoPs : String :=
  "sig1=(\"signature-agent\" \"@authority\");created=999940;expires=1000000;keyid=\"k1\";tag=\"web-bot-auth\""

/-- Signature-Input fixture with the `signature-agent` component
missing. -/
def sigInputNoSa : String :=
  "sig1=(\"payment-signature\" \"@authority\");created=999940;expires=1000000;keyid=\"k1\";tag=\"web-bot-auth\""

/-- Signature-Input fixture with the `@authority` component missing. -/
def sigInputNoAuth : String :=
  "sig1=(\"payment-signature\" \"signature-agent\");created=999940;expires=1000000;keyid=\"k1\";tag=\"web-bot-auth\""

/-- Signature header fixture matching label `sig1`. -/
def sigHeaderA : String := "sig1=:QUJDRA==:"

/-- Web-bot-auth verify input built from a Signature-Input fixture. -/
def wbaInput (si : String) : VerifyInput :=
  ⟨"\"http://localhost:4021/jwks\"", si, sigHeaderA, "GET",
   "http://localhost:4021/api/data", "cGF5bG9hZA"⟩

/-- Credit-scheme payload for the C7 witness. -/
def fluxaPayloadA : FluxaPaymentPayload :=
  ⟨jsonReqA',
   some ⟨some "\"http://localhost:4021/jwks\"", some sigInputOk, some sigHeaderA,
         some "cGF5bG9hZA"⟩,
   some "http://localhost:4021/api/data", some "agent-1"⟩

/-- The only store-visible effect a failed `verify` can have: nothing, or
the in-place `sessionSignature` refresh of an existing record (scheme.ts
lines 284-286). -/
def sigOnlyChange (pre post : Option OdpDeferredSessionRecord) : Prop :=
  post = pre ∨
    ∃ rr sig, pre = some rr ∧ post = some { rr with sessionSignature := some sig }

/-- The record update performed by a successful `verify` (scheme.ts lines
436-438). -/
def acceptUpdate (base : OdpDeferredSessionRecord) (receipt : OdpDeferredReceipt)
    (amt : Nat) : OdpDeferredSessionRecord :=
  { base with
      spent := base.spent + amt,
      nextNonce := base.nextNonce + 1,
      receipts := base.receipts ++ [receipt] }

/-- The spend bound of the spec's invariant list: every stored record's
gross spend respects its approval's `maxSpend` whenever that parses. -/
def SpendInv (store : OdpStore) : Prop :=
  ∀ sid r, store sid = some r → ∀ m, bigInt? r.approval.maxSpend = some m → r.spent ≤ m

/-- No stored record is marked as settling (the lock is free whenever no
settle call is in flight). -/
def settlingClear (store : OdpStore) : Prop :=
  ∀ sid r, store sid = some r → r.settling = false

/-- The keep-condition of `settle`'s receipt filter: the stored nonce
parses and lies outside the settled range `[n0, n1]`. -/
def nonceOutside (n0 n1 : Nat) (x : OdpDeferredReceipt) : Bool :=
  match bigInt? x.nonce with
  | some nv => decide (nv < n0 ∨ n1 < nv)
  | none => false

/-- Store holding only `recE`, used by the C2 and C10 witnesses. -/
def stE : OdpStore := setSession emptyOdpStore sessIdA recE

/-- Store holding only `recC5`, used by the C5 witness. -/
def stC5 : OdpStore := setSession emptyOdpStore sessIdA recC5

/-- Store holding only `recC6`, used by the C6 witness. -/
def stC6 : OdpStore := setSession emptyOdpStore sessIdA recC6

/-- The session record left by the operation list `opsC3`: receipt 0 was
accepted and settled away, receipt 1 accepted afterwards. -/
def recC3post : OdpDeferredSessionRecord :=
  ⟨approvalA, some "0xsig", "0xsc", 2, 30000, [rcptA "1"], false⟩

mutual
/-- Structural size of a JSON value, used to bound the parser fuel in the
round-trip proof. -/
def jsize : Json → Nat
  | .null => 1
  | .bool _ => 1
  | .num _ => 1
  | .str _ => 1
  | .arr xs => jsizeL xs + 1
  | .obj fs => jsizeF fs + 1

/-- Structural size of a JSON array. -/
def jsizeL : JsonList → Nat
  | .nil => 1
  | .cons x xs => jsize x + jsizeL xs + 1

/-- Structural size of JSON object fields. -/
def jsizeF : JsonFields → Nat
  | .nil => 1
  | .cons _ v fs => jsize v + jsizeF fs + 1
end

/-- Read an escaped string body up to the closing quote, undoing
`escChars`; returns the body and the remainder. -/
def parseStrBody : List Char → Option (List Char × List Char)
  | [] => none
  | c :: rest =>
      if c = '"' then some ([], rest)
      else if c = '\\' then
        match rest with
        | [] => none
        | d :: rest' => (parseStrBody rest').map (fun p => (d :: p.1, p.2))
      else (parseStrBody rest).map (fun p => (c :: p.1, p.2))

mutual
/-- Fuelled parser for the output of `jChars`, used only to prove that
`jChars` is injective (so that `deepEqual`'s string comparison coincides
with equality of normalized values). -/
def parseJ : Nat → List Char → Option (Json × List Char)
  | 0, _ => none
  | fuel + 1, l =>
      match l with
      | 'n' :: 'u' :: 'l' :: 'l' :: rest => some (.null, rest)
      | 't' :: 'r' :: 'u' :: 'e' :: rest => some (.bool true, rest)
      | 'f' :: 'a' :: 'l' :: 's' :: 'e' :: rest => some (.bool false, rest)
      | '"' :: rest => (parseStrBody rest).map (fun p => (.str p.1.asString, p.2))
      | '[' :: ']' :: rest => some (.arr .nil, rest)
      | '[' :: rest => (parseElems fuel rest).map (fun p => (.arr p.1, p.2))
      | c :: rest =>
          if c = Char.ofNat 123 then
            match rest with
            | [] => none
            | c2 :: rest' =>
                if c2 = Char.ofNat 125 then some (.obj .nil, rest')
                else (parseFields fuel (c2 :: rest')).map (fun p => (.obj p.1, p.2))
          else if c = '-' then
            match rest.takeWhile Char.isDigit with
            | [] => none
            | ds =>
                (decValAux ds 0).map
                  (fun v => (.num (-(v : Int)), rest.dropWhile Char.isDigit))
          else if c.isDigit then
            (decValAux ((c :: rest).takeWhile Char.isDigit) 0).map
              (fun v => (.num (v : Int), (c :: rest).dropWhile Char.isDigit))
          else none
      | [] => none

/-- Fuelled parser for comma-separated array elements up to `]`. -/
def parseElems : Nat → List Char → Option (JsonList × List Char)
  | 0, _ => none
  | fuel + 1, l =>
      match parseJ fuel l with
      | none => none
      | some (v, rest) =>
          match rest with
          | ',' :: rest' => (parseElems fuel rest').map (fun p => (.cons v p.1, p.2))
          | ']' :: rest' => some (.cons v .nil, rest')
          | _ => none

/-- Fuelled parser for comma-separated object fields up to the closing
brace. -/
def parseFields : Nat → List Char → Option (JsonFields × List Char)
  | 0, _ => none
  | fuel + 1, l =>
      match l with
      | '"' :: rest =>
          match parseStrBody rest with
          | none => none
          | some (k, rest1) =>
              match rest1 with
              | ':' :: rest2 =>
                  match parseJ fuel rest2 with
                  | none => none
                  | some (v, rest3) =>
                      match rest3 with
                      | ',' :: rest4 =>
                          (parseFields fuel rest4).map
                            (fun p => (.cons k.asString v p.1, p.2))
                      | c :: rest4 =>
                          if c = Char.ofNat 125 then some (.cons k.asString v .nil, rest4)
                          else none
                      | [] => none
              | _ => none
      | _ => none
end

theorem digitChar_isDigit (d : Nat) (h : d < 10) : (Nat.digitChar d).isDigit = true := by
  interval_cases d <;> decide

theorem digitChar_toNat (d : Nat) (h : d < 10) : (Nat.digitChar d).toNat = 48 + d := by
  interval_cases d <;> decide

theorem toDigitsCore_append (fuel : Nat) : ∀ (n : Nat) (acc : List Char),
    Nat.toDigitsCore 10 fuel n acc = Nat.toDigitsCore 10 fuel n [] ++ acc := by
  induction fuel with
  | zero => intro n acc; simp [Nat.toDigitsCore]
  | succ fuel ih =>
      intro n acc
      simp only [Nat.toDigitsCore]
      by_cases h : n / 10 = 0
      · simp [h]
      · simp only [h, if_false]
        rw [ih (n / 10) (Nat.digitChar (n % 10) :: acc),
          ih (n / 10) [Nat.digitChar (n % 10)]]
        simp

theorem toDigitsCore_fuel (n : Nat) : ∀ f₁ f₂, n < f₁ → n < f₂ →
    Nat.toDigitsCore 10 f₁ n [] = Nat.toDigitsCore 10 f₂ n [] := by
  induction n using Nat.strong_induction_on with
  | _ n ih =>
      intro f₁ f₂ h₁ h₂
      match f₁, f₂ with
      | f₁ + 1, f₂ + 1 =>
        simp only [Nat.toDigitsCore]
        by_cases h : n / 10 = 0
        · simp [h]
        · have hn : 0 < n := by
            rcases Nat.eq_zero_or_pos n with h0 | h0
            · exact absurd (by simp [h0]) h
            · exact h0
          have hlt : n / 10 < n := Nat.div_lt_self hn (by decide)
          simp only [h, if_false]
          rw [toDigitsCore_append f₁, toDigitsCore_append f₂,
            ih (n / 10) hlt f₁ f₂ (by omega) (by omega)]

theorem decValAux_append (l1 l2 : List Char) : ∀ a,
    decValAux (l1 ++ l2) a =
      match decValAux l1 a with
      | some b => decValAux l2 b
      | none => none := by
  induction l1 with
  | nil => intro a; simp [decValAux]
  | cons c cs ih =>
      intro a
      simp only [List.cons_append, decValAux]
      by_cases h : c.isDigit <;> simp [h, ih]

theorem toDigits_val (n : Nat) : decValAux (Nat.toDigits 10 n) 0 = some n := by
  induction n using Nat.strong_induction_on with
  | _ n ih =>
      have hstep : Nat.toDigits 10 n =
          (if n / 10 = 0 then [Nat.digitChar (n % 10)]
           else Nat.toDigitsCore 10 n (n / 10) [Nat.digitChar (n % 10)]) := rfl
      by_cases h : n < 10
      · have h0 : n / 10 = 0 := Nat.div_eq_of_lt h
        have hm : n % 10 = n := Nat.mod_eq_of_lt h
        rw [hstep, if_pos h0, hm]
        simp [decValAux, digitChar_isDigit n h, digitChar_toNat n h]
      · have h10 : n / 10 ≠ 0 := by
          have : 0 < n / 10 := Nat.div_pos (Nat.le_of_not_lt h) (by decide)
          omega
        have hlt : n / 10 < n := Nat.div_lt_self (by omega) (by decide)
        have hmod : n % 10 < 10 := Nat.mod_lt _ (by decide)
        rw [hstep, if_neg h10, toDigitsCore_append n,
          toDigitsCore_fuel (n / 10) n (n / 10 + 1) hlt (Nat.lt_succ_self _),
          show Nat.toDigitsCore 10 (n / 10 + 1) (n / 10) [] = Nat.toDigits 10 (n / 10) from rfl,
          decValAux_append, ih (n / 10) hlt]
        simp only [decValAux, digitChar_isDigit _ hmod, if_true, digitChar_toNat _ hmod]
        congr 1
        omega

theorem bigInt?_repr (n : Nat) : bigInt? (Nat.repr n) = some n := by
  have hdata : (List.asString (Nat.toDigits 10 n)).data = Nat.toDigits 10 n := rfl
  unfold bigInt? Nat.repr
  rw [hdata]
  exact toDigits_val n

theorem noncesFrom_append (r : OdpDeferredReceipt) :
    ∀ (rs : List OdpDeferredReceipt) (v : Nat), noncesFrom v rs →
      r.nonce = Nat.repr (v + rs.length) → noncesFrom v (rs ++ [r]) := by
  intro rs
  induction rs with
  | nil =>
      intro v _ hr
      exact ⟨by simpa using hr, trivial⟩
  | cons x xs ih =>
      intro v h hr
      refine ⟨h.1, ih (v + 1) h.2 ?_⟩
      rw [hr]
      congr 1
      simp
      omega

theorem noncesFrom_take : ∀ (rs : List OdpDeferredReceipt) (k v : Nat),
    noncesFrom v rs → noncesFrom v (rs.take k) := by
  intro rs
  induction rs with
  | nil => intro k v _; simp [noncesFrom]
  | cons x xs ih =>
      intro k v h
      match k with
      | 0 => exact trivial
      | k + 1 => exact ⟨h.1, ih k (v + 1) h.2⟩

theorem noncesFrom_drop : ∀ (k : Nat) (rs : List OdpDeferredReceipt) (v : Nat),
    noncesFrom v rs → noncesFrom (v + k) (rs.drop k) := by
  intro k
  induction k with
  | zero => intro rs v h; simpa using h
  | succ k ih =>
      intro rs v h
      match rs with
      | [] => exact trivial
      | x :: xs =>
          have := ih xs (v + 1) h.2
          rw [show v + 1 + k = v + (k + 1) by omega] at this
          simpa using this

theorem noncesFrom_get : ∀ (rs : List OdpDeferredReceipt) (v : Nat),
    noncesFrom v rs → ∀ i (h : i < rs.length),
      (rs.get ⟨i, h⟩).nonce = Nat.repr (v + i) := by
  intro rs
  induction rs with
  | nil => intro v _ i h; simp at h
  | cons x xs ih =>
      intro v hv i h
      match i with
      | 0 => simpa using hv.1
      | i + 1 =>
          have := ih (v + 1) hv.2 i (by simpa using Nat.lt_of_succ_lt_succ h)
          rw [show v + 1 + i = v + (i + 1) by omega] at this
          simpa using this

theorem noncesFrom_lastOf : ∀ (brest : List OdpDeferredReceipt)
    (b0 : OdpDeferredReceipt) (v : Nat), noncesFrom v (b0 :: brest) →
    bigInt? (OdpDeferredEvmScheme.lastOf b0 brest).nonce = some (v + brest.length) := by
  intro brest
  induction brest with
  | nil =>
      intro b0 v h
      rw [OdpDeferredEvmScheme.lastOf, h.1, bigInt?_repr]
      simp
  | cons y ys ih =>
      intro b0 v h
      have := ih y (v + 1) h.2
      rw [OdpDeferredEvmScheme.lastOf, this,
        show v + 1 + ys.length = v + (y :: ys).length from by
          simp only [List.length_cons]; omega]

theorem filterRange_drop : ∀ (rs : List OdpDeferredReceipt) (w n0 n1 : Nat),
    noncesFrom w rs → n0 ≤ w →
    OdpDeferredEvmScheme.filterRange? n0 n1 rs = some (rs.drop (n1 + 1 - w)) := by
  intro rs
  induction rs with
  | nil => intro w n0 n1 _ _; simp [OdpDeferredEvmScheme.filterRange?]
  | cons r rs ih =>
      intro w n0 n1 h hle
      have hbig : bigInt? r.nonce = some w := by rw [h.1]; exact bigInt?_repr w
      rw [OdpDeferredEvmScheme.filterRange?, hbig, ih (w + 1) n0 n1 h.2 (by omega)]
      dsimp only
      by_cases hw : w ≤ n1
      · have hcond : ¬ (w < n0 ∨ w > n1) := by omega
        rw [if_neg hcond]
        have heq : n1 + 1 - w = (n1 + 1 - (w + 1)) + 1 := by omega
        rw [heq, List.drop_succ_cons]
      · have hcond : w < n0 ∨ w > n1 := by omega
        rw [if_pos hcond]
        have h1 : n1 + 1 - (w + 1) = 0 := by omega
        have h2 : n1 + 1 - w = 0 := by omega
        rw [h1, h2]
        simp

theorem verifyChecks1_error (cfg : OdpDeferredEvmSchemeConfig)
    (payload : PaymentPayload) (req : PaymentRequirements) (r : VerifyResponse)
    (h : OdpDeferredEvmScheme.verifyChecks1 cfg payload req = .error r) :
    r.isValid = false ∧
      (r.invalidReason = some "session_expired" →
        req.extra = Except.error "session_expired") := by
  unfold OdpDeferredEvmScheme.verifyChecks1 at h
  split at h
  · cases h; exact ⟨rfl, by simp⟩
  · split at h
    · cases h; exact ⟨rfl, by simp⟩
    · split at h
      · next msg heq =>
          cases h
          exact ⟨rfl, by intro hm; simp at hm; rw [← hm]; exact heq⟩
      · split at h
        · cases h; exact ⟨rfl, by simp⟩
        · split at h
          · cases h; exact ⟨rfl, by simp⟩
          · split at h
            · cases h; exact ⟨rfl, by simp⟩
            · split at h
              · cases h; exact ⟨rfl, by simp⟩
              · split at h
                · cases h; exact ⟨rfl, by simp⟩
                · split at h
                  · cases h; exact ⟨rfl, by simp⟩
                  · cases h

theorem verifyChecks1_ok (cfg : OdpDeferredEvmSchemeConfig)
    (payload : PaymentPayload) (req : PaymentRequirements)
    (extras : OdpDeferredExtras) (receipt : OdpDeferredReceipt)
    (h : OdpDeferredEvmScheme.verifyChecks1 cfg payload req = .ok (extras, receipt)) :
    payload.payload.receipt = some receipt ∧ req.extra = Except.ok extras := by
  unfold OdpDeferredEvmScheme.verifyChecks1 at h
  split at h
  · cases h
  · split at h
    · cases h
    · split at h
      · cases h
      · next extras' heq =>
          split at h
          · cases h
          · next receipt' heq2 =>
              split at h
              · cases h
              · split at h
                · cases h
                · split at h
                  · cases h
                  · split at h
                    · cases h
                    · split at h
                      · cases h
                      · cases h; exact ⟨heq2, heq⟩

theorem sessionPhase_error (keccak : List Nat → String) (orc : VerifyOracles)
    (store : OdpStore) (payload : PaymentPayload) (req : PaymentRequirements)
    (extras : OdpDeferredExtras) (receipt : OdpDeferredReceipt) (r : VerifyResponse)
    (h : OdpDeferredEvmScheme.sessionPhase keccak orc store payload req extras receipt =
      .error (VOut.ok r)) :
    r.isValid = false ∧ r.invalidReason ≠ some "session_expired" := by
  unfold OdpDeferredEvmScheme.sessionPhase at h
  dsimp only at h
  repeat' split at h
  all_goals cases h
  all_goals exact ⟨rfl, by simp⟩

theorem sessionPhase_char (keccak : List Nat → String) (orc : VerifyOracles)
    (store : OdpStore) (payload : PaymentPayload) (req : PaymentRequirements)
    (extras : OdpDeferredExtras) (receipt : OdpDeferredReceipt)
    (approval : OdpDeferredSessionApproval) (rec : OdpDeferredSessionRecord)
    (store₁ : OdpStore)
    (h : OdpDeferredEvmScheme.sessionPhase keccak orc store payload req extras receipt =
      .ok (approval, rec, store₁)) :
    (payload.payload.sessionApproval = none ∧ store receipt.sessionId = some rec ∧
      approval = rec.approval ∧ store₁ = store) ∨
    (∃ sa sig, payload.payload.sessionApproval = some sa ∧ approval = sa ∧
      ((store receipt.sessionId = none ∧ ∃ sn, bigInt? sa.startNonce = some sn ∧
         rec = ⟨sa, some sig, extras.settlementContract, sn, 0, [], false⟩ ∧
         store₁ = store) ∨
       (∃ r, store receipt.sessionId = some r ∧
         rec = { r with sessionSignature := some sig } ∧
         r.approval.startNonce = sa.startNonce ∧ r.approval.maxSpend = sa.maxSpend ∧
         store₁ = setSession store receipt.sessionId rec))) := by
  unfold OdpDeferredEvmScheme.sessionPhase at h
  dsimp only at h
  repeat' split at h
  all_goals cases h
  · rename_i sig hsig hne xh eh hh hsv xr hstoreN xsn sn hsa hhash hflds hsn
    exact Or.inr ⟨approval, sig, hsa, rfl, Or.inl ⟨hstoreN, sn, hsn, rfl, rfl⟩⟩
  · rename_i sig hsig hne xh eh hh hsv xr r hstore hsa hhash hflds hrec
    push_neg at hrec
    exact Or.inr ⟨approval, sig, hsa, rfl,
      Or.inr ⟨r, hstore, rfl, hrec.2.1, hrec.2.2.1, rfl⟩⟩
  · rename_i xa hsa xb hstore
    exact Or.inl ⟨hsa, hstore, rfl, rfl⟩

theorem maxAmountCheck_error (extras : OdpDeferredExtras)
    (receipt : OdpDeferredReceipt) (payer : String) (v : VOut)
    (h : OdpDeferredEvmScheme.maxAmountCheck extras receipt payer = .error v) :
    ∀ r, v = VOut.ok r → r.isValid = false ∧ r.invalidReason ≠ some "session_expired" := by
  unfold OdpDeferredEvmScheme.maxAmountCheck at h
  repeat' split at h
  all_goals cases h
  all_goals intro r hr
  all_goals cases hr
  all_goals exact ⟨rfl, by simp⟩

theorem verifyPostChecksA_error (cfg : OdpDeferredEvmSchemeConfig)
    (approval : OdpDeferredSessionApproval) (record : OdpDeferredSessionRecord)
    (extras : OdpDeferredExtras) (req : PaymentRequirements) (v : VOut)
    (h : OdpDeferredEvmScheme.verifyPostChecksA cfg approval record extras req = .error v) :
    ∀ r, v = VOut.ok r → r.isValid = false ∧ r.invalidReason ≠ some "session_expired" := by
  unfold OdpDeferredEvmScheme.verifyPostChecksA at h
  repeat' split at h
  all_goals cases h
  all_goals intro r hr
  all_goals cases hr
  all_goals exact ⟨rfl, by simp⟩

theorem verifyPostChecksB_error (orc : VerifyOracles)
    (approval : OdpDeferredSessionApproval) (record : OdpDeferredSessionRecord)
    (extras : OdpDeferredExtras) (receipt : OdpDeferredReceipt)
    (req : PaymentRequirements) (v : VOut)
    (h : OdpDeferredEvmScheme.verifyPostChecksB orc approval record extras receipt req =
      .error v) :
    ∀ r, v = VOut.ok r → r.isValid = false ∧ r.invalidReason ≠ some "session_expired" := by
  unfold OdpDeferredEvmScheme.verifyPostChecksB at h
  repeat' split at h
  all_goals cases h
  all_goals intro r hr
  all_goals first
  | (cases hr; done)
  | (cases hr; refine ⟨rfl, ?_⟩; simp)

theorem verifyPostChecksB_ok (orc : VerifyOracles)
    (approval : OdpDeferredSessionApproval) (record : OdpDeferredSessionRecord)
    (extras : OdpDeferredExtras) (receipt : OdpDeferredReceipt)
    (req : PaymentRequirements)
    (h : OdpDeferredEvmScheme.verifyPostChecksB orc approval record extras receipt req =
      .ok ()) :
    receipt.nonce = Nat.repr record.nextNonce := by
  unfold OdpDeferredEvmScheme.verifyPostChecksB at h
  repeat' split at h
  all_goals cases h
  rename_i hwds hdelay hsid hsig hnonce hamount
  exact not_not.mp hnonce

theorem verifyPostChecksC_error (orc : VerifyOracles)
    (approval : OdpDeferredSessionApproval) (record : OdpDeferredSessionRecord)
    (extras : OdpDeferredExtras) (receipt : OdpDeferredReceipt)
    (req : PaymentRequirements) (v : VOut)
    (h : OdpDeferredEvmScheme.verifyPostChecksC orc approval record extras receipt req =
      .error v) :
    ∀ r, v = VOut.ok r → r.isValid = false ∧ r.invalidReason ≠ some "session_expired" := by
  unfold OdpDeferredEvmScheme.verifyPostChecksC at h
  repeat' split at h
  all_goals cases h
  all_goals intro r hr
  all_goals first
  | (cases hr; done)
  | (cases hr; refine ⟨rfl, ?_⟩; simp; done)
  | (rename_i hmc; exact maxAmountCheck_error extras receipt approval.payer _ hmc r hr)
  | (rename_i hdl hex; push_neg at hdl; exact absurd hex (by omega))

theorem verifyPostChecksC_ok (orc : VerifyOracles)
    (approval : OdpDeferredSessionApproval) (record : OdpDeferredSessionRecord)
    (extras : OdpDeferredExtras) (receipt : OdpDeferredReceipt)
    (req : PaymentRequirements) (amt : Nat)
    (h : OdpDeferredEvmScheme.verifyPostChecksC orc approval record extras receipt req =
      .ok amt) :
    bigInt? receipt.amount = some amt ∧
      ∃ maxSp, bigInt? approval.maxSpend = some maxSp ∧ record.spent + amt ≤ maxSp := by
  unfold OdpDeferredEvmScheme.verifyPostChecksC at h
  repeat' split at h
  all_goals cases h
  rename_i hmc hdl hexp hrh amt' maxSp hamt hmax hspend hbal
  exact ⟨hmax, maxSp, hamt, by omega⟩

theorem verifyPostChecks_error (cfg : OdpDeferredEvmSchemeConfig) (orc : VerifyOracles)
    (approval : OdpDeferredSessionApproval) (record : OdpDeferredSessionRecord)
    (extras : OdpDeferredExtras) (receipt : OdpDeferredReceipt)
    (req : PaymentRequirements) (v : VOut)
    (h : OdpDeferredEvmScheme.verifyPostChecks cfg orc approval record extras receipt req =
      .error v) :
    ∀ r, v = VOut.ok r → r.isValid = false ∧ r.invalidReason ≠ some "session_expired" := by
  unfold OdpDeferredEvmScheme.verifyPostChecks at h
  split at h
  · next heq =>
      cases h
      exact verifyPostChecksA_error cfg approval record extras req _ heq
  · split at h
    · next heq =>
        cases h
        exact verifyPostChecksB_error orc approval record extras receipt req _ heq
    · exact verifyPostChecksC_error orc approval record extras receipt req _ h

theorem verifyPostChecks_ok (cfg : OdpDeferredEvmSchemeConfig) (orc : VerifyOracles)
    (approval : OdpDeferredSessionApproval) (record : OdpDeferredSessionRecord)
    (extras : OdpDeferredExtras) (receipt : OdpDeferredReceipt)
    (req : PaymentRequirements) (amt : Nat)
    (h : OdpDeferredEvmScheme.verifyPostChecks cfg orc approval record extras receipt req =
      .ok amt) :
    bigInt? receipt.amount = some amt ∧
      receipt.nonce = Nat.repr record.nextNonce ∧
      ∃ maxSp, bigInt? approval.maxSpend = some maxSp ∧ record.spent + amt ≤ maxSp := by
  unfold OdpDeferredEvmScheme.verifyPostChecks at h
  split at h
  · cases h
  · split at h
    · cases h
    · next u hB =>
        obtain ⟨h1, h2⟩ := verifyPostChecksC_ok orc approval record extras receipt req amt h
        exact ⟨h1, by cases u; exact verifyPostChecksB_ok orc approval record extras receipt req hB, h2⟩

theorem verify_fail (cfg : OdpDeferredEvmSchemeConfig) (keccak : List Nat → String)
    (orc : VerifyOracles) (store : OdpStore) (payload : PaymentPayload)
    (req : PaymentRequirements) (out : VOut) (store' : OdpStore)
    (h : OdpDeferredEvmScheme.verify cfg keccak orc store payload req = (out, store'))
    (hnosucc : ∀ r, out = VOut.ok r → r.isValid = false) :
    ∀ sid, sigOnlyChange (store sid) (store' sid) := by
  unfold OdpDeferredEvmScheme.verify at h
  split at h
  · cases h; intro sid; exact Or.inl rfl
  · next extras receipt hchk =>
      split at h
      · cases h; intro sid; exact Or.inl rfl
      · split at h
        · cases h; intro sid; exact Or.inl rfl
        · rename_i approval rec store₁ hsp
          unfold OdpDeferredEvmScheme.verifyPost at h
          split at h
          · rename_i v hpc
            cases h
            intro sid
            rcases sessionPhase_char keccak orc store payload req extras receipt
                approval rec store' hsp with
              ⟨_, _, _, hst⟩ | ⟨sa, sig, _, _, hcase⟩
            · rw [hst]; exact Or.inl rfl
            · rcases hcase with ⟨_, _, _, _, hst⟩ | ⟨rr, hstore, hrec, _, _, hst⟩
              · rw [hst]; exact Or.inl rfl
              · rw [hst]
                simp only [setSession]
                by_cases hsid : sid = receipt.sessionId
                · rw [if_pos hsid, hsid, hstore]
                  exact Or.inr ⟨rr, sig, rfl, by rw [hrec]⟩
                · rw [if_neg hsid]; exact Or.inl rfl
          · rename_i amt hpc
            cases h
            exact absurd (hnosucc _ rfl) (by simp)

theorem verify_succ (cfg : OdpDeferredEvmSchemeConfig) (keccak : List Nat → String)
    (orc : VerifyOracles) (store : OdpStore) (payload : PaymentPayload)
    (req : PaymentRequirements) (out : VOut) (store' : OdpStore) (r : VerifyResponse)
    (h : OdpDeferredEvmScheme.verify cfg keccak orc store payload req = (out, store'))
    (hout : out = VOut.ok r) (hval : r.isValid = true) :
    ∃ receipt amt, payload.payload.receipt = some receipt ∧
      bigInt? receipt.amount = some amt ∧
      (∀ sid, sid ≠ receipt.sessionId → store' sid = store sid) ∧
      ((∃ rr rec, store receipt.sessionId = some rr ∧
          sigOnlyChange (some rr) (some rec) ∧
          receipt.nonce = Nat.repr rec.nextNonce ∧
          (∃ maxSp, bigInt? rec.approval.maxSpend = some maxSp ∧
            rec.spent + amt ≤ maxSp) ∧
          r.payer = some (match payload.payload.sessionApproval with
                          | some sa => sa.payer
                          | none => rr.approval.payer) ∧
          store' receipt.sessionId = some (acceptUpdate rec receipt amt)) ∨
       (store receipt.sessionId = none ∧
        ∃ sa sn rec, payload.payload.sessionApproval = some sa ∧
          bigInt? sa.startNonce = some sn ∧
          rec.approval = sa ∧ rec.nextNonce = sn ∧ rec.spent = 0 ∧ rec.receipts = [] ∧
          rec.settling = false ∧
          receipt.nonce = Nat.repr sn ∧
          (∃ maxSp, bigInt? sa.maxSpend = some maxSp ∧ amt ≤ maxSp) ∧
          r.payer = some sa.payer ∧
          store' receipt.sessionId = some (acceptUpdate rec receipt amt))) := by
  unfold OdpDeferredEvmScheme.verify at h
  split at h
  · next r0 hchk =>
      cases h
      cases hout
      exact absurd hval (by simp [(verifyChecks1_error cfg payload req _ hchk).1])
  · next extras receipt hchk =>
      split at h
      · cases h; cases hout
      · split at h
        · next v hsp =>
            cases h
            cases hout
            exact absurd hval
              (by simp [(sessionPhase_error keccak orc store payload req extras receipt
                r hsp).1])
        · rename_i approval rec store₁ hsp
          unfold OdpDeferredEvmScheme.verifyPost at h
          split at h
          · rename_i v hpc
            cases h
            cases hout
            exact absurd hval
              (by simp [(verifyPostChecks_error cfg orc approval rec extras receipt req _
                hpc r rfl).1])
          · rename_i amt hpc
            cases h
            cases hout
            obtain ⟨hrcpt, hext⟩ := verifyChecks1_ok cfg payload req extras receipt hchk
            obtain ⟨hamt, hnonce, maxSp, hmax, hbound⟩ :=
              verifyPostChecks_ok cfg orc approval rec extras receipt req amt hpc
            refine ⟨receipt, amt, hrcpt, hamt, ?_, ?_⟩
            · intro sid hsid
              simp only [setSession, if_neg hsid]
              rcases sessionPhase_char keccak orc store payload req extras receipt
                  approval rec store₁ hsp with
                ⟨_, _, _, hst⟩ | ⟨sa, sig, _, _, hcase⟩
              · rw [hst]
              · rcases hcase with ⟨_, _, _, _, hst⟩ | ⟨rr, hstore, hrec, _, _, hst⟩
                · rw [hst]
                · rw [hst]; simp only [setSession, if_neg hsid]
            · rcases sessionPhase_char keccak orc store payload req extras receipt
                  approval rec store₁ hsp with
                ⟨hsa, hstore, happ, hst⟩ | ⟨sa, sig, hsa, happ, hcase⟩
              · left
                refine ⟨rec, rec, hstore, Or.inl rfl, hnonce,
                  ⟨maxSp, by rw [← happ]; exact hmax, hbound⟩, ?_, ?_⟩
                · simp only [hsa, happ]
                · simp [setSession, acceptUpdate]
              · subst happ
                rcases hcase with ⟨hstoreN, sn, hsn, hrec, hst⟩ |
                    ⟨rr, hstore, hrec, hsnonce, hmaxsp, hst⟩
                · right
                  refine ⟨hstoreN, approval, sn, rec, hsa, hsn, by rw [hrec], by rw [hrec],
                    by rw [hrec], by rw [hrec], by rw [hrec], ?_, ⟨maxSp, hmax, ?_⟩, rfl, ?_⟩
                  · rw [hnonce, hrec]
                  · have : rec.spent = 0 := by rw [hrec]
                    omega
                  · simp [setSession, acceptUpdate]
                · left
                  refine ⟨rr, rec, hstore, Or.inr ⟨rr, sig, rfl, by rw [hrec]⟩, hnonce,
                    ⟨maxSp, ?_, hbound⟩, ?_, ?_⟩
                  · rw [hrec]
                    show bigInt? rr.approval.maxSpend = some maxSp
                    rw [hmaxsp]
                    exact hmax
                  · simp only [hsa]
                  · rw [hst]
                    simp [setSession, acceptUpdate]

theorem sigOnlyChange_fields (pre post : OdpDeferredSessionRecord)
    (h : sigOnlyChange (some pre) (some post)) :
    post.approval = pre.approval ∧ post.nextNonce = pre.nextNonce ∧
      post.spent = pre.spent ∧ post.receipts = pre.receipts ∧
      post.settling = pre.settling := by
  rcases h with h | ⟨rr, sig, hpre, hpost⟩
  · cases h
    exact ⟨rfl, rfl, rfl, rfl, rfl⟩
  · cases hpre
    cases hpost
    exact ⟨rfl, rfl, rfl, rfl, rfl⟩

theorem sessionInv_sigOnly (pre post : OdpDeferredSessionRecord)
    (hinv : SessionInv pre) (h : sigOnlyChange (some pre) (some post)) :
    SessionInv post := by
  obtain ⟨happ, hnn, hsp, hrc, hst⟩ := sigOnlyChange_fields pre post h
  obtain ⟨s, v, h1, h2, h3, h4, h5, h6⟩ := hinv
  exact ⟨s, v, by rw [happ]; exact h1, h2, by rw [hnn, hrc]; exact h3,
    by rw [hrc]; exact h4, by rw [happ, hsp]; exact h5, by rw [hst]; exact h6⟩

theorem sessionInvV_sigOnly (pre post : OdpDeferredSessionRecord)
    (hinv : SessionInvV pre) (h : sigOnlyChange (some pre) (some post)) :
    SessionInvV post := by
  obtain ⟨happ, hnn, hsp, hrc, hst⟩ := sigOnlyChange_fields pre post h
  obtain ⟨s, h1, h2, h3⟩ := hinv
  exact ⟨s, by rw [happ]; exact h1, by rw [hnn, hrc]; exact h2, by rw [hrc]; exact h3⟩

theorem sessionInv_accept (rec : OdpDeferredSessionRecord)
    (receipt : OdpDeferredReceipt) (amt maxSp : Nat) (hinv : SessionInv rec)
    (hnonce : receipt.nonce = Nat.repr rec.nextNonce)
    (hms : bigInt? rec.approval.maxSpend = some maxSp)
    (hb : rec.spent + amt ≤ maxSp) :
    SessionInv (acceptUpdate rec receipt amt) := by
  obtain ⟨s, v, h1, h2, h3, h4, h5, h6⟩ := hinv
  refine ⟨s, v, h1, h2, ?_, ?_, ?_, h6⟩
  · simp only [acceptUpdate, List.length_append, List.length_cons, List.length_nil]
    omega
  · exact noncesFrom_append receipt rec.receipts v h4
      (by rw [hnonce]; congr 1; omega)
  · intro m hm
    simp only [acceptUpdate] at hm ⊢
    rw [hms] at hm
    cases hm
    exact hb

theorem sessionInvV_accept (rec : OdpDeferredSessionRecord)
    (receipt : OdpDeferredReceipt) (amt : Nat) (hinv : SessionInvV rec)
    (hnonce : receipt.nonce = Nat.repr rec.nextNonce) :
    SessionInvV (acceptUpdate rec receipt amt) := by
  obtain ⟨s, h1, h2, h3⟩ := hinv
  refine ⟨s, h1, ?_, ?_⟩
  · simp only [acceptUpdate, List.length_append, List.length_cons, List.length_nil]
    omega
  · exact noncesFrom_append receipt rec.receipts s h3
      (by rw [hnonce]; congr 1; omega)

theorem sessionInv_dropReceipts (record : OdpDeferredSessionRecord) (j : Nat)
    (hinv : SessionInv record) :
    SessionInv { record with receipts := record.receipts.drop j, settling := false } := by
  obtain ⟨s, v, h1, h2, h3, h4, h5, _⟩ := hinv
  refine ⟨s, v + min j record.receipts.length, h1, by omega, ?_, ?_, h5, rfl⟩
  · simp only [List.length_drop]
    omega
  · by_cases hj : j ≤ record.receipts.length
    · rw [min_eq_left hj]
      exact noncesFrom_drop j record.receipts v h4
    · have hnil : record.receipts.drop j = [] :=
        List.drop_eq_nil_of_le (by omega)
      simp only [hnil]
      trivial

theorem settleBatch_shape (cfg : OdpDeferredEvmSchemeConfig)
    (record : OdpDeferredSessionRecord) :
    ∃ k, OdpDeferredEvmScheme.settleBatch cfg record = record.receipts.take k := by
  unfold OdpDeferredEvmScheme.settleBatch
  match cfg.maxReceiptsPerSettlement with
  | some m =>
      by_cases hm : 0 < m
      · exact ⟨m, by simp [hm]⟩
      · exact ⟨record.receipts.length, by simp [hm]⟩
  | none => exact ⟨record.receipts.length, by simp⟩

theorem settlePre_ok (cfg : OdpDeferredEvmSchemeConfig) (orc : SettleOracles)
    (record : OdpDeferredSessionRecord) (extras : OdpDeferredExtras) (net : String)
    (b0 : OdpDeferredReceipt) (brest : List OdpDeferredReceipt) (n0 n1 total : Nat)
    (h : OdpDeferredEvmScheme.settlePre cfg orc record extras net =
      .ok (b0, brest, n0, n1, total)) :
    OdpDeferredEvmScheme.settleBatch cfg record = b0 :: brest ∧
      bigInt? b0.nonce = some n0 ∧
      bigInt? (OdpDeferredEvmScheme.lastOf b0 brest).nonce = some n1 ∧
      OdpDeferredEvmScheme.sumAmounts? (b0 :: brest) = some total ∧
      OdpDeferredEvmScheme.contigCheck (b0 :: brest) n0 =
        OdpDeferredEvmScheme.ContigOut.ok := by
  unfold OdpDeferredEvmScheme.settlePre at h
  dsimp only at h
  repeat' split at h
  all_goals cases h
  rename_i xb xw sn hwds hdel x3 x2 x1 xc hbatch hn0 hcontig hn1 hbal htotal
  exact ⟨hbatch, hn0, hn1, htotal, hcontig⟩

theorem settleBatch_head (cfg : OdpDeferredEvmSchemeConfig)
    (record : OdpDeferredSessionRecord) (b0 : OdpDeferredReceipt)
    (brest : List OdpDeferredReceipt) (v : Nat)
    (hnon : noncesFrom v record.receipts)
    (hbatch : OdpDeferredEvmScheme.settleBatch cfg record = b0 :: brest) :
    b0.nonce = Nat.repr v := by
  obtain ⟨k, hk⟩ := settleBatch_shape cfg record
  rw [hk] at hbatch
  cases hrl : record.receipts with
  | nil => rw [hrl] at hbatch; simp at hbatch
  | cons x xs =>
      rw [hrl] at hbatch
      cases k with
      | zero => simp at hbatch
      | succ k =>
          rw [List.take_succ_cons] at hbatch
          injection hbatch with hx hrest
          rw [hrl] at hnon
          rw [← hx]
          exact hnon.1

theorem settleExec_receipts (cfg : OdpDeferredEvmSchemeConfig)
    (keccak : List Nat → String) (orc : SettleOracles)
    (record : OdpDeferredSessionRecord) (receipt : OdpDeferredReceipt)
    (net : String) (n0 n1 total : Nat) (out : SOut) (rs : List OdpDeferredReceipt)
    (h : OdpDeferredEvmScheme.settleExec cfg keccak orc record receipt net n0 n1 total =
      (out, rs)) :
    rs = record.receipts ∨
      OdpDeferredEvmScheme.filterRange? n0 n1 record.receipts = some rs := by
  unfold OdpDeferredEvmScheme.settleExec at h
  dsimp only at h
  repeat' split at h
  all_goals cases h
  all_goals first
  | exact Or.inl rfl
  | (rename_i hfr; exact Or.inr hfr)

theorem sessionInv_settleBody (cfg : OdpDeferredEvmSchemeConfig)
    (keccak : List Nat → String) (orc : SettleOracles)
    (record : OdpDeferredSessionRecord) (extras : OdpDeferredExtras)
    (receipt : OdpDeferredReceipt) (net : String) (out : SOut)
    (rs : List OdpDeferredReceipt) (hinv : SessionInv record)
    (h : OdpDeferredEvmScheme.settleBody cfg keccak orc record extras receipt net =
      (out, rs)) :
    SessionInv { record with receipts := rs, settling := false } := by
  unfold OdpDeferredEvmScheme.settleBody at h
  split at h
  · cases h
    simpa using sessionInv_dropReceipts record 0 hinv
  · rename_i p b0 brest n0 n1 total hpre
    obtain ⟨hbatch, hn0, hn1, htotal, hcontig⟩ :=
      settlePre_ok cfg orc record extras net b0 brest n0 n1 total hpre
    rcases settleExec_receipts cfg keccak orc record receipt net n0 n1 total out rs h with
      hsame | hfr
    · rw [hsame]
      simpa using sessionInv_dropReceipts record 0 hinv
    · have hinv' := hinv
      obtain ⟨s, v, h1, h2, h3, h4, h5, h6⟩ := hinv'
      have hb0 : b0.nonce = Nat.repr v := settleBatch_head cfg record b0 brest v h4 hbatch
      have hv : bigInt? b0.nonce = some v := by rw [hb0]; exact bigInt?_repr v
      rw [hv] at hn0
      have hn0v : v = n0 := Option.some.inj hn0
      have hdrop := filterRange_drop record.receipts v n0 n1 h4 (by omega)
      rw [hdrop] at hfr
      have hrs : rs = record.receipts.drop (n1 + 1 - v) := (Option.some.inj hfr).symm
      rw [hrs]
      exact sessionInv_dropReceipts record (n1 + 1 - v) hinv

theorem settle_store_shape (cfg : OdpDeferredEvmSchemeConfig)
    (keccak : List Nat → String) (orc : SettleOracles) (store : OdpStore)
    (payload : PaymentPayload) (req : PaymentRequirements) (out : SOut)
    (store' : OdpStore)
    (h : OdpDeferredEvmScheme.settle cfg keccak orc store payload req = (out, store')) :
    ∀ sid, store' sid = store sid ∨
      ∃ record rs, store sid = some record ∧ record.settling = false ∧
        store' sid = some { record with receipts := rs, settling := false } := by
  unfold OdpDeferredEvmScheme.settle at h
  dsimp only at h
  split at h
  · cases h; intro sid; exact Or.inl rfl
  · rename_i extras receipt hchk
    split at h
    · cases h; intro sid; exact Or.inl rfl
    · rename_i record hrec
      split at h
      · cases h; intro sid; exact Or.inl rfl
      · rename_i hsetl
        cases h
        intro sid
        by_cases hsid : sid = receipt.sessionId
        · subst hsid
          refine Or.inr ⟨record,
            (OdpDeferredEvmScheme.settleBody cfg keccak orc record extras receipt
              payload.accepted.network).2,
            hrec, by simpa using hsetl, ?_⟩
          simp [setSession]
        · left
          simp only [setSession, if_neg hsid]

theorem storeInv_verify (cfg : OdpDeferredEvmSchemeConfig) (keccak : List Nat → String)
    (orc : VerifyOracles) (store : OdpStore) (payload : PaymentPayload)
    (req : PaymentRequirements) (out : VOut) (store' : OdpStore)
    (hstore : StoreInv store)
    (h : OdpDeferredEvmScheme.verify cfg keccak orc store payload req = (out, store')) :
    StoreInv store' := by
  by_cases hs : ∃ r, out = VOut.ok r ∧ r.isValid = true
  · obtain ⟨r, hout, hval⟩ := hs
    obtain ⟨receipt, amt, hrcpt, hamt, hother, hcase⟩ :=
      verify_succ cfg keccak orc store payload req out store' r h hout hval
    intro sid r2 hr2
    by_cases hsid : sid = receipt.sessionId
    · subst hsid
      rcases hcase with
        ⟨rr, rec, hpre, hsig, hnonce, ⟨maxSp, hms, hb⟩, hpayer, hpost⟩ |
        ⟨hpre, sa, sn, rec, hsa, hsn, happr, hnn, hsp0, hrc0, hstl, hnonce,
          ⟨maxSp, hms, hb⟩, hpayer, hpost⟩
      · rw [hpost] at hr2
        cases hr2
        exact sessionInv_accept rec receipt amt maxSp
          (sessionInv_sigOnly rr rec (hstore _ _ hpre) hsig) hnonce hms hb
      · rw [hpost] at hr2
        cases hr2
        refine sessionInv_accept rec receipt amt maxSp
          ⟨sn, sn, by rw [happr]; exact hsn, le_rfl,
            by rw [hrc0, hnn]; simp,
            by rw [hrc0]; trivial,
            fun m hm => by rw [hsp0]; exact Nat.zero_le m, hstl⟩
          (by rw [hnn]; exact hnonce) (by rw [happr]; exact hms)
          (by rw [hsp0]; omega)
    · rw [hother sid hsid] at hr2
      exact hstore sid r2 hr2
  · push_neg at hs
    have hno : ∀ r, out = VOut.ok r → r.isValid = false := by
      intro r hr
      have hne := hs r hr
      cases hv : r.isValid
      · rfl
      · exact absurd hv hne
    intro sid r hr
    rcases verify_fail cfg keccak orc store payload req out store' h hno sid with
      heq | ⟨rr, sig, hpre, hpost⟩
    · rw [heq] at hr
      exact hstore sid r hr
    · rw [hpost] at hr
      cases hr
      exact sessionInv_sigOnly rr _ (hstore sid rr hpre) (Or.inr ⟨rr, sig, rfl, rfl⟩)

theorem storeInv_settle (cfg : OdpDeferredEvmSchemeConfig) (keccak : List Nat → String)
    (orc : SettleOracles) (store : OdpStore) (payload : PaymentPayload)
    (req : PaymentRequirements) (out : SOut) (store' : OdpStore)
    (hstore : StoreInv store)
    (h : OdpDeferredEvmScheme.settle cfg keccak orc store payload req = (out, store')) :
    StoreInv store' := by
  unfold OdpDeferredEvmScheme.settle at h
  dsimp only at h
  split at h
  · cases h; exact hstore
  · rename_i extras receipt hchk
    split at h
    · cases h; exact hstore
    · rename_i record hrec
      split at h
      · cases h; exact hstore
      · rename_i hsetl
        cases h
        intro sid r hr
        by_cases hsid : sid = receipt.sessionId
        · subst hsid
          simp only [setSession, if_pos rfl] at hr
          cases hr
          exact sessionInv_settleBody cfg keccak orc record extras receipt
            payload.accepted.network _ _ (hstore _ _ hrec) rfl
        · simp only [setSession, if_neg hsid] at hr
          exact hstore sid r hr

theorem storeInv_foldl (cfg : OdpDeferredEvmSchemeConfig) (keccak : List Nat → String) :
    ∀ (ops : List OdpOp) (store : OdpStore), StoreInv store →
      StoreInv (ops.foldl (stepStore cfg keccak) store) := by
  intro ops
  induction ops with
  | nil => intro store h; exact h
  | cons op ops ih =>
      intro store h
      refine ih _ ?_
      cases op with
      | vrfy orc payload req =>
          exact storeInv_verify cfg keccak orc store payload req _ _ h rfl
      | stl orc payload req =>
          exact storeInv_settle cfg keccak orc store payload req _ _ h rfl

theorem storeInv_runOps (cfg : OdpDeferredEvmSchemeConfig) (keccak : List Nat → String)
    (ops : List OdpOp) : StoreInv (runOps cfg keccak ops) :=
  storeInv_foldl cfg keccak ops emptyOdpStore (fun _ r hr => by cases hr)

theorem storeInvV_verify (cfg : OdpDeferredEvmSchemeConfig) (keccak : List Nat → String)
    (orc : VerifyOracles) (store : OdpStore) (payload : PaymentPayload)
    (req : PaymentRequirements) (out : VOut) (store' : OdpStore)
    (hstore : StoreInvV store)
    (h : OdpDeferredEvmScheme.verify cfg keccak orc store payload req = (out, store')) :
    StoreInvV store' := by
  by_cases hs : ∃ r, out = VOut.ok r ∧ r.isValid = true
  · obtain ⟨r, hout, hval⟩ := hs
    obtain ⟨receipt, amt, hrcpt, hamt, hother, hcase⟩ :=
      verify_succ cfg keccak orc store payload req out store' r h hout hval
    intro sid r2 hr2
    by_cases hsid : sid = receipt.sessionId
    · subst hsid
      rcases hcase with
        ⟨rr, rec, hpre, hsig, hnonce, hms, hpayer, hpost⟩ |
        ⟨hpre, sa, sn, rec, hsa, hsn, happr, hnn, hsp0, hrc0, hstl, hnonce,
          hms, hpayer, hpost⟩
      · rw [hpost] at hr2
        cases hr2
        exact sessionInvV_accept rec receipt amt
          (sessionInvV_sigOnly rr rec (hstore _ _ hpre) hsig) hnonce
      · rw [hpost] at hr2
        cases hr2
        exact sessionInvV_accept rec receipt amt
          ⟨sn, by rw [happr]; exact hsn, by rw [hrc0, hnn]; simp,
            by rw [hrc0]; trivial⟩
          (by rw [hnn]; exact hnonce)
    · rw [hother sid hsid] at hr2
      exact hstore sid r2 hr2
  · push_neg at hs
    have hno : ∀ r, out = VOut.ok r → r.isValid = false := by
      intro r hr
      have hne := hs r hr
      cases hv : r.isValid
      · rfl
      · exact absurd hv hne
    intro sid r hr
    rcases verify_fail cfg keccak orc store payload req out store' h hno sid with
      heq | ⟨rr, sig, hpre, hpost⟩
    · rw [heq] at hr
      exact hstore sid r hr
    · rw [hpost] at hr
      cases hr
      exact sessionInvV_sigOnly rr _ (hstore sid rr hpre) (Or.inr ⟨rr, sig, rfl, rfl⟩)

theorem storeInvV_foldl (cfg : OdpDeferredEvmSchemeConfig) (keccak : List Nat → String) :
    ∀ (ops : List OdpOp), (∀ op ∈ ops, isVerifyOp op = true) →
      ∀ (store : OdpStore), StoreInvV store →
        StoreInvV (ops.foldl (stepStore cfg keccak) store) := by
  intro ops
  induction ops with
  | nil => intro _ store h; exact h
  | cons op ops ih =>
      intro hv store h
      refine ih (fun o ho => hv o (List.mem_cons_of_mem op ho)) _ ?_
      cases op with
      | vrfy orc payload req =>
          exact storeInvV_verify cfg keccak orc store payload req _ _ h rfl
      | stl orc payload req =>
          exact absurd (hv (OdpOp.stl orc payload req)
            (List.mem_cons_self (OdpOp.stl orc payload req) ops)) (by simp [isVerifyOp])

theorem storeInvV_runOps (cfg : OdpDeferredEvmSchemeConfig) (keccak : List Nat → String)
    (ops : List OdpOp) (hv : ∀ op ∈ ops, isVerifyOp op = true) :
    StoreInvV (runOps cfg keccak ops) :=
  storeInvV_foldl cfg keccak ops hv emptyOdpStore (fun _ r hr => by cases hr)

theorem settleChecks1_error (cfg : OdpDeferredEvmSchemeConfig)
    (payload : PaymentPayload) (req : PaymentRequirements) (r : SettleResponse)
    (h : OdpDeferredEvmScheme.settleChecks1 cfg payload req = .error r) :
    r.success = false := by
  unfold OdpDeferredEvmScheme.settleChecks1 at h
  dsimp only at h
  repeat' split at h
  all_goals cases h
  all_goals rfl

theorem settlePre_error (cfg : OdpDeferredEvmSchemeConfig) (orc : SettleOracles)
    (record : OdpDeferredSessionRecord) (extras : OdpDeferredExtras) (net : String)
    (out : SOut)
    (h : OdpDeferredEvmScheme.settlePre cfg orc record extras net = .error out) :
    ∀ r, out = SOut.ok r → r.success = false := by
  unfold OdpDeferredEvmScheme.settlePre at h
  dsimp only at h
  repeat' split at h
  all_goals cases h
  all_goals intro r hr
  all_goals first
  | (cases hr; done)
  | (cases hr; rfl)

theorem settleExec_syn_succ (cfg : OdpDeferredEvmSchemeConfig)
    (keccak : List Nat → String) (orc : SettleOracles)
    (record : OdpDeferredSessionRecord) (receipt : OdpDeferredReceipt)
    (net : String) (n0 n1 total : Nat) (r : SettleResponse)
    (rs : List OdpDeferredReceipt) (hmode : cfg.settlementMode ≠ "onchain")
    (h : OdpDeferredEvmScheme.settleExec cfg keccak orc record receipt net n0 n1 total =
      (SOut.ok r, rs)) :
    ∃ bytes, encodePackedSyn? receipt.sessionId n0 n1 total = some bytes ∧
      r = ⟨true, none, keccak bytes, net, some record.approval.payer⟩ ∧
      OdpDeferredEvmScheme.filterRange? n0 n1 record.receipts = some rs := by
  unfold OdpDeferredEvmScheme.settleExec at h
  dsimp only at h
  rw [if_neg hmode] at h
  split at h
  · cases h
  · rename_i bytes henc
    split at h
    · cases h
    · rename_i rs0 hfr
      have h1 := congrArg Prod.fst h
      have h2 := congrArg Prod.snd h
      simp only at h1 h2
      cases h1
      exact ⟨bytes, henc, rfl, by rw [hfr, h2]⟩

theorem settleBody_syn_succ (cfg : OdpDeferredEvmSchemeConfig)
    (keccak : List Nat → String) (orc : SettleOracles)
    (record : OdpDeferredSessionRecord) (extras : OdpDeferredExtras)
    (receipt : OdpDeferredReceipt) (net : String) (r : SettleResponse)
    (rs : List OdpDeferredReceipt) (hmode : cfg.settlementMode ≠ "onchain")
    (hsucc : r.success = true)
    (h : OdpDeferredEvmScheme.settleBody cfg keccak orc record extras receipt net =
      (SOut.ok r, rs)) :
    ∃ b0 brest n0 n1 total bytes,
      OdpDeferredEvmScheme.settlePre cfg orc record extras net =
        .ok (b0, brest, n0, n1, total) ∧
      encodePackedSyn? receipt.sessionId n0 n1 total = some bytes ∧
      r = ⟨true, none, keccak bytes, net, some record.approval.payer⟩ ∧
      OdpDeferredEvmScheme.filterRange? n0 n1 record.receipts = some rs := by
  unfold OdpDeferredEvmScheme.settleBody at h
  split at h
  · rename_i out hpre
    have h1 := congrArg Prod.fst h
    simp only at h1
    exact absurd hsucc
      (by rw [settlePre_error cfg orc record extras net out hpre r h1]; simp)
  · rename_i p b0 brest n0 n1 total hpre
    obtain ⟨bytes, henc, hr, hfr⟩ :=
      settleExec_syn_succ cfg keccak orc record receipt net n0 n1 total r rs hmode h
    exact ⟨b0, brest, n0, n1, total, bytes, hpre, henc, hr, hfr⟩

theorem settle_succ (cfg : OdpDeferredEvmSchemeConfig) (keccak : List Nat → String)
    (orc : SettleOracles) (store : OdpStore) (payload : PaymentPayload)
    (req : PaymentRequirements) (r : SettleResponse) (store' : OdpStore)
    (h : OdpDeferredEvmScheme.settle cfg keccak orc store payload req = (SOut.ok r, store'))
    (hsucc : r.success = true) :
    ∃ extras receipt record rs,
      OdpDeferredEvmScheme.settleChecks1 cfg payload req = .ok (extras, receipt) ∧
      store receipt.sessionId = some record ∧ record.settling = false ∧
      OdpDeferredEvmScheme.settleBody cfg keccak orc record extras receipt
        payload.accepted.network = (SOut.ok r, rs) ∧
      store' receipt.sessionId = some { record with receipts := rs, settling := false } ∧
      (∀ sid, sid ≠ receipt.sessionId → store' sid = store sid) := by
  unfold OdpDeferredEvmScheme.settle at h
  dsimp only at h
  split at h
  · rename_i r0 hchk
    have h1 := congrArg Prod.fst h
    simp only at h1
    cases h1
    exact absurd hsucc (by rw [settleChecks1_error cfg payload req _ hchk]; simp)
  · rename_i extras receipt hchk
    split at h
    · have h1 := congrArg Prod.fst h
      simp only at h1
      cases h1
      exact absurd hsucc (by simp)
    · rename_i record hrec
      split at h
      · have h1 := congrArg Prod.fst h
        simp only at h1
        cases h1
        exact absurd hsucc (by simp)
      · rename_i hsetl
        have h1 := congrArg Prod.fst h
        have h2 := congrArg Prod.snd h
        simp only at h1 h2
        refine ⟨extras, receipt, record,
          (OdpDeferredEvmScheme.settleBody cfg keccak orc record extras receipt
            payload.accepted.network).2,
          hchk, hrec, by simpa using hsetl, ?_, ?_, ?_⟩
        · rw [← h1]
        · rw [← h2]
          simp [setSession]
        · intro sid hsid
          rw [← h2]
          simp only [setSession, if_neg hsid]

theorem filterRange_eq_filter (n0 n1 : Nat) :
    ∀ (rs rs' : List OdpDeferredReceipt),
      OdpDeferredEvmScheme.filterRange? n0 n1 rs = some rs' →
      rs' = rs.filter (nonceOutside n0 n1) := by
  intro rs
  induction rs with
  | nil =>
      intro rs' h
      rw [OdpDeferredEvmScheme.filterRange?] at h
      cases h
      rfl
  | cons r rest ih =>
      intro rs' h
      rw [OdpDeferredEvmScheme.filterRange?] at h
      split at h
      · cases h
      · rename_i nv hnv
        split at h
        · cases h
        · rename_i rest' hrest
          cases h
          rw [List.filter_cons]
          by_cases hc : nv < n0 ∨ nv > n1
          · rw [if_pos hc]
            have : nonceOutside n0 n1 r = true := by
              unfold nonceOutside
              rw [hnv]
              simpa using hc
            rw [this, ih rest' hrest]
            simp
          · rw [if_neg hc]
            have : nonceOutside n0 n1 r = false := by
              unfold nonceOutside
              rw [hnv]
              simpa using hc
            rw [this, ih rest' hrest]
            simp

theorem settle_inprogress (cfg : OdpDeferredEvmSchemeConfig)
    (keccak : List Nat → String) (orc : SettleOracles) (store : OdpStore)
    (payload : PaymentPayload) (req : PaymentRequirements)
    (extras : OdpDeferredExtras) (receipt : OdpDeferredReceipt)
    (record : OdpDeferredSessionRecord)
    (hchk : OdpDeferredEvmScheme.settleChecks1 cfg payload req = .ok (extras, receipt))
    (hrec : store receipt.sessionId = some record)
    (hsetl : record.settling = true) :
    OdpDeferredEvmScheme.settle cfg keccak orc store payload req =
      (SOut.ok ⟨false, some "settlement_in_progress", "", payload.accepted.network,
                some record.approval.payer⟩, store) := by
  unfold OdpDeferredEvmScheme.settle
  dsimp only
  rw [hchk]
  dsimp only
  rw [hrec]
  dsimp only
  rw [hsetl]
  rfl

theorem trackedOpt_sigOnly (pre post : Option OdpDeferredSessionRecord)
    (h : sigOnlyChange pre post) : trackedOpt post = trackedOpt pre := by
  rcases h with h | ⟨rr, sig, hpre, hpost⟩
  · rw [h]
  · rw [hpre, hpost]
    rfl

/-- C1: every odp-deferred verify returning isValid true appends the receipt,
adds exactly the receipt amount to spent, increments nextNonce by one,
touches no other session, and returns the payer of the governing approval;
in particular a first accepted receipt with startNonce "0" and amount
"15000" leaves the session with nextNonce 1, spent 15000 and that single
receipt. -/
theorem c1_verify_success_updates (cfg : OdpDeferredEvmSchemeConfig)
    (keccak : List Nat → String) (orc : VerifyOracles) (store : OdpStore)
    (payload : PaymentPayload) (req : PaymentRequirements) (out : VOut)
    (store' : OdpStore) (r : VerifyResponse)
    (h : OdpDeferredEvmScheme.verify cfg keccak orc store payload req = (out, store'))
    (hout : out = VOut.ok r) (hval : r.isValid = true) :
    (∃ receipt amt, payload.payload.receipt = some receipt ∧
      bigInt? receipt.amount = some amt ∧
      (∀ sid, sid ≠ receipt.sessionId → store' sid = store sid) ∧
      ∃ rec', store' receipt.sessionId = some rec' ∧
        r.payer = some (match payload.payload.sessionApproval with
                        | some sa => sa.payer
                        | none => rec'.approval.payer) ∧
        ((∃ rr, store receipt.sessionId = some rr ∧
            rec'.nextNonce = rr.nextNonce + 1 ∧ rec'.spent = rr.spent + amt ∧
            rec'.receipts = rr.receipts ++ [receipt]) ∨
         (store receipt.sessionId = none ∧
          ∃ sa sn, payload.payload.sessionApproval = some sa ∧
            bigInt? sa.startNonce = some sn ∧
            rec'.nextNonce = sn + 1 ∧ rec'.spent = amt ∧ rec'.receipts = [receipt]))) ∧
    trackedOpt ((OdpDeferredEvmScheme.verify cfgA keccakA orcA emptyOdpStore
        (payloadOpenA "0") reqA).2 sessIdA) = some (1, 15000, [rcptA "0"]) ∧
    (OdpDeferredEvmScheme.verify cfgA keccakA orcA emptyOdpStore
        (payloadOpenA "0") reqA).1 = VOut.ok ⟨true, none, some "0xpayer"⟩ := by
  obtain ⟨receipt, amt, hrcpt, hamt, hother, hcase⟩ :=
    verify_succ cfg keccak orc store payload req out store' r h hout hval
  refine ⟨⟨receipt, amt, hrcpt, hamt, hother, ?_⟩, by decide, by decide⟩
  rcases hcase with
    ⟨rr, rec, hpre, hsig, hnonce, hms, hpayer, hpost⟩ |
    ⟨hpre, sa, sn, rec, hsa, hsn, happr, hnn, hsp0, hrc0, hstl, hnonce, hms, hpayer, hpost⟩
  · obtain ⟨ha, hn, hs2, hr2, hst2⟩ := sigOnlyChange_fields rr rec hsig
    refine ⟨acceptUpdate rec receipt amt, hpost, ?_, Or.inl ⟨rr, hpre, ?_, ?_, ?_⟩⟩
    · cases hsa2 : payload.payload.sessionApproval with
      | some sa => simp only [hsa2] at hpayer ⊢; exact hpayer
      | none =>
          simp only [hsa2] at hpayer ⊢
          rw [show (acceptUpdate rec receipt amt).approval = rec.approval from rfl, ha]
          exact hpayer
    · simp [acceptUpdate, hn]
    · simp [acceptUpdate, hs2]
    · simp [acceptUpdate, hr2]
  · refine ⟨acceptUpdate rec receipt amt, hpost, ?_,
      Or.inr ⟨hpre, sa, sn, hsa, hsn, ?_, ?_, ?_⟩⟩
    · simp only [hsa] at hpayer ⊢
      exact hpayer
    · simp [acceptUpdate, hnn]
    · simp [acceptUpdate, hsp0]
    · simp [acceptUpdate, hrc0]

/-- Witness for C1: the fresh-session acceptance of receipt 0. -/
theorem c1_witness :
    (∃ receipt amt, (payloadOpenA "0").payload.receipt = some receipt ∧
      bigInt? receipt.amount = some amt ∧
      (∀ sid, sid ≠ receipt.sessionId →
        (OdpDeferredEvmScheme.verify cfgA keccakA orcA emptyOdpStore
          (payloadOpenA "0") reqA).2 sid = emptyOdpStore sid) ∧
      ∃ rec', (OdpDeferredEvmScheme.verify cfgA keccakA orcA emptyOdpStore
          (payloadOpenA "0") reqA).2 receipt.sessionId = some rec' ∧
        (⟨true, none, some "0xpayer"⟩ : VerifyResponse).payer =
          some (match (payloadOpenA "0").payload.sessionApproval with
                | some sa => sa.payer
                | none => rec'.approval.payer) ∧
        ((∃ rr, emptyOdpStore receipt.sessionId = some rr ∧
            rec'.nextNonce = rr.nextNonce + 1 ∧ rec'.spent = rr.spent + amt ∧
            rec'.receipts = rr.receipts ++ [receipt]) ∨
         (emptyOdpStore receipt.sessionId = none ∧
          ∃ sa sn, (payloadOpenA "0").payload.sessionApproval = some sa ∧
            bigInt? sa.startNonce = some sn ∧
            rec'.nextNonce = sn + 1 ∧ rec'.spent = amt ∧ rec'.receipts = [receipt]))) ∧
    trackedOpt ((OdpDeferredEvmScheme.verify cfgA keccakA orcA emptyOdpStore
        (payloadOpenA "0") reqA).2 sessIdA) = some (1, 15000, [rcptA "0"]) ∧
    (OdpDeferredEvmScheme.verify cfgA keccakA orcA emptyOdpStore
        (payloadOpenA "0") reqA).1 = VOut.ok ⟨true, none, some "0xpayer"⟩ :=
  c1_verify_success_updates cfgA keccakA orcA emptyOdpStore (payloadOpenA "0") reqA
    (OdpDeferredEvmScheme.verify cfgA keccakA orcA emptyOdpStore
      (payloadOpenA "0") reqA).1
    (OdpDeferredEvmScheme.verify cfgA keccakA orcA emptyOdpStore
      (payloadOpenA "0") reqA).2
    ⟨true, none, some "0xpayer"⟩ rfl (by decide) rfl

/-- C2: every odp-deferred verify returning isValid false leaves the tracked
session state (nextNonce, spent, receipts) of every stored session exactly
as it was; in particular a receipt whose nonce skips ahead of nextNonce is
rejected with receipt_nonce_mismatch and changes nothing. -/
theorem c2_verify_failure_frame (cfg : OdpDeferredEvmSchemeConfig)
    (keccak : List Nat → String) (orc : VerifyOracles) (store : OdpStore)
    (payload : PaymentPayload) (req : PaymentRequirements) (out : VOut)
    (store' : OdpStore)
    (h : OdpDeferredEvmScheme.verify cfg keccak orc store payload req = (out, store'))
    (hfail : ∀ r, out = VOut.ok r → r.isValid = false) :
    (∀ sid, trackedOpt (store' sid) = trackedOpt (store sid)) ∧
    (OdpDeferredEvmScheme.verify cfgA keccakA orcA stE (payloadNextA "5") reqA).1 =
      VOut.ok ⟨false, some "receipt_nonce_mismatch", some "0xpayer"⟩ ∧
    (∀ sid, trackedOpt ((OdpDeferredEvmScheme.verify cfgA keccakA orcA stE
        (payloadNextA "5") reqA).2 sid) = trackedOpt (stE sid)) := by
  refine ⟨?_, by decide, ?_⟩
  · intro sid
    exact trackedOpt_sigOnly _ _
      (verify_fail cfg keccak orc store payload req out store' h hfail sid)
  · intro sid
    refine trackedOpt_sigOnly _ _
      (verify_fail cfgA keccakA orcA stE (payloadNextA "5") reqA _ _ rfl ?_ sid)
    intro r hr
    have : VOut.ok ⟨false, some "receipt_nonce_mismatch", some "0xpayer"⟩ = VOut.ok r := by
      rw [← hr]
      decide
    cases this
    rfl

/-- Witness for C2: the nonce-skip rejection on the stored session `recE`. -/
theorem c2_witness :
    (∀ sid, trackedOpt ((OdpDeferredEvmScheme.verify cfgA keccakA orcA stE
        (payloadNextA "5") reqA).2 sid) = trackedOpt (stE sid)) ∧
    (OdpDeferredEvmScheme.verify cfgA keccakA orcA stE (payloadNextA "5") reqA).1 =
      VOut.ok ⟨false, some "receipt_nonce_mismatch", some "0xpayer"⟩ := by
  refine ⟨(c2_verify_failure_frame cfgA keccakA orcA stE (payloadNextA "5") reqA
    (OdpDeferredEvmScheme.verify cfgA keccakA orcA stE (payloadNextA "5") reqA).1
    (OdpDeferredEvmScheme.verify cfgA keccakA orcA stE (payloadNextA "5") reqA).2
    rfl ?_).2.2, by decide⟩
  intro r hr
  have : VOut.ok ⟨false, some "receipt_nonce_mismatch", some "0xpayer"⟩ = VOut.ok r := by
    rw [← hr]
    decide
  cases this
  rfl

/-- C3 (counterexample): after opening a session at startNonce 0, settling
receipt 0 away and accepting receipt 1, the stored receipts no longer start
at approval.startNonce: the first stored receipt carries nonce 1, not 0. -/
theorem c3_counterexample :
    runOps cfgA keccakA opsC3 sessIdA = some recC3post ∧
    bigInt? recC3post.approval.startNonce = some 0 ∧
    ¬ (∀ i, ∀ hi : i < recC3post.receipts.length,
        bigInt? (recC3post.receipts.get ⟨i, hi⟩).nonce = some (0 + i)) := by
  refine ⟨by decide, by decide, ?_⟩
  intro hall
  exact absurd (hall 0 (by decide)) (by decide)

/-- C3 (amended): at all times every stored session's receipts carry
contiguous decimal nonces v, v+1, … ending at nextNonce - 1 for some
v ≥ approval.startNonce; the stored nonces start exactly at
approval.startNonce as long as no settle has run (settlement removes the
settled prefix, so the receipts list then starts higher). -/
theorem c3_nonce_window_invariant :
    (∀ cfg keccak ops sid r, runOps cfg keccak ops sid = some r →
      ∃ s v, bigInt? r.approval.startNonce = some s ∧ s ≤ v ∧
        v + r.receipts.length = r.nextNonce ∧ noncesFrom v r.receipts) ∧
    (∀ cfg keccak ops, (∀ op ∈ ops, isVerifyOp op = true) →
      ∀ sid r, runOps cfg keccak ops sid = some r →
        ∃ s, bigInt? r.approval.startNonce = some s ∧
          s + r.receipts.length = r.nextNonce ∧ noncesFrom s r.receipts) := by
  constructor
  · intro cfg keccak ops sid r hr
    obtain ⟨s, v, h1, h2, h3, h4, _, _⟩ := storeInv_runOps cfg keccak ops sid r hr
    exact ⟨s, v, h1, h2, h3, h4⟩
  · intro cfg keccak ops hv sid r hr
    exact storeInvV_runOps cfg keccak ops hv sid r hr

/-- C4: the gross spend of every stored session never exceeds its approval's
maxSpend, after any sequence of verify and settle operations; in the
over-spend scenario (maxSpend 30000, three 15000 receipts) the third
receipt is rejected with session_max_spend_exceeded and exactly the two
accepted receipts remain. -/
theorem c4_spend_bound :
    (∀ cfg keccak ops, SpendInv (runOps cfg keccak ops)) ∧
    trackedOpt (runOps cfgA keccakA opsB2 sessIdA) =
      some (2, 30000, [rcptA "0", rcptA "1"]) ∧
    (OdpDeferredEvmScheme.verify cfgA keccakA orcA (runOps cfgA keccakA opsB2)
        (payloadNextA "2") reqB).1 =
      VOut.ok ⟨false, some "session_max_spend_exceeded", some "0xpayer"⟩ ∧
    trackedOpt ((OdpDeferredEvmScheme.verify cfgA keccakA orcA (runOps cfgA keccakA opsB2)
        (payloadNextA "2") reqB).2 sessIdA) = some (2, 30000, [rcptA "0", rcptA "1"]) := by
  refine ⟨?_, by decide, by decide, by decide⟩
  intro cfg keccak ops sid r hr m hm
  obtain ⟨s, v, h1, h2, h3, h4, h5, h6⟩ := storeInv_runOps cfg keccak ops sid r hr
  exact h5 m hm

/-- C5: every successful settle in synthetic mode settles a contiguous batch
whose first nonce is n0 and last nonce n1 and whose amounts sum to total,
returns transaction = keccak256 of the packed (bytes32 sessionId, uint256
n0, uint256 n1, uint256 total), removes from the session exactly the
receipts whose nonce lies in [n0, n1], and leaves spent unchanged. -/
theorem c5_synthetic_settle (cfg : OdpDeferredEvmSchemeConfig)
    (keccak : List Nat → String) (orc : SettleOracles) (store : OdpStore)
    (payload : PaymentPayload) (req : PaymentRequirements) (r : SettleResponse)
    (store' : OdpStore)
    (h : OdpDeferredEvmScheme.settle cfg keccak orc store payload req = (SOut.ok r, store'))
    (hmode : cfg.settlementMode ≠ "onchain") (hsucc : r.success = true) :
    ∃ extras receipt record b0 brest n0 n1 total bytes rs,
      OdpDeferredEvmScheme.settleChecks1 cfg payload req = .ok (extras, receipt) ∧
      store receipt.sessionId = some record ∧
      OdpDeferredEvmScheme.settlePre cfg orc record extras payload.accepted.network =
        .ok (b0, brest, n0, n1, total) ∧
      bigInt? b0.nonce = some n0 ∧
      bigInt? (OdpDeferredEvmScheme.lastOf b0 brest).nonce = some n1 ∧
      OdpDeferredEvmScheme.sumAmounts? (b0 :: brest) = some total ∧
      OdpDeferredEvmScheme.contigCheck (b0 :: brest) n0 =
        OdpDeferredEvmScheme.ContigOut.ok ∧
      encodePackedSyn? receipt.sessionId n0 n1 total = some bytes ∧
      r.transaction = keccak bytes ∧
      OdpDeferredEvmScheme.filterRange? n0 n1 record.receipts = some rs ∧
      rs = record.receipts.filter (nonceOutside n0 n1) ∧
      store' receipt.sessionId = some { record with receipts := rs, settling := false } ∧
      (∀ sid, sid ≠ receipt.sessionId → store' sid = store sid) := by
  obtain ⟨extras, receipt, record, rs, hchk, hrec, hsetl, hbody, hpost, hother⟩ :=
    settle_succ cfg keccak orc store payload req r store' h hsucc
  obtain ⟨b0, brest, n0, n1, total, bytes, hpre, henc, hr, hfr⟩ :=
    settleBody_syn_succ cfg keccak orc record extras receipt payload.accepted.network
      r rs hmode hsucc hbody
  obtain ⟨hbatch, hn0, hn1, htotal, hcontig⟩ :=
    settlePre_ok cfg orc record extras payload.accepted.network b0 brest n0 n1 total hpre
  exact ⟨extras, receipt, record, b0, brest, n0, n1, total, bytes, rs, hchk, hrec,
    hpre, hn0, hn1, htotal, hcontig, henc, by rw [hr], hfr,
    filterRange_eq_filter n0 n1 record.receipts rs hfr, hpost, hother⟩

/-- Witness for C5: settling the five stored receipts of `recC5`
synthetically. -/
theorem c5_witness :
    ∃ extras receipt record b0 brest n0 n1 total bytes rs,
      OdpDeferredEvmScheme.settleChecks1 cfgA (payloadNextA "0") reqA =
        .ok (extras, receipt) ∧
      stC5 receipt.sessionId = some record ∧
      OdpDeferredEvmScheme.settlePre cfgA orcSA record extras
          (payloadNextA "0").accepted.network = .ok (b0, brest, n0, n1, total) ∧
      bigInt? b0.nonce = some n0 ∧
      bigInt? (OdpDeferredEvmScheme.lastOf b0 brest).nonce = some n1 ∧
      OdpDeferredEvmScheme.sumAmounts? (b0 :: brest) = some total ∧
      OdpDeferredEvmScheme.contigCheck (b0 :: brest) n0 =
        OdpDeferredEvmScheme.ContigOut.ok ∧
      encodePackedSyn? receipt.sessionId n0 n1 total = some bytes ∧
      (⟨true, none, "0xhash", "eip155:84532", some "0xpayer"⟩ :
          SettleResponse).transaction = keccakA bytes ∧
      OdpDeferredEvmScheme.filterRange? n0 n1 record.receipts = some rs ∧
      rs = record.receipts.filter (nonceOutside n0 n1) ∧
      (OdpDeferredEvmScheme.settle cfgA keccakA orcSA stC5 (payloadNextA "0") reqA).2
          receipt.sessionId =
        some { record with receipts := rs, settling := false } ∧
      (∀ sid, sid ≠ receipt.sessionId →
        (OdpDeferredEvmScheme.settle cfgA keccakA orcSA stC5 (payloadNextA "0") reqA).2
          sid = stC5 sid) :=
  c5_synthetic_settle cfgA keccakA orcSA stC5 (payloadNextA "0") reqA
    ⟨true, none, "0xhash", "eip155:84532", some "0xpayer"⟩
    (OdpDeferredEvmScheme.settle cfgA keccakA orcSA stC5 (payloadNextA "0") reqA).2
    rfl (by decide) rfl

/-- C6: a settle entered while the session's settling flag is raised returns
settlement_in_progress and changes nothing; every settle leaves each
session either untouched or persisted with the settling flag cleared (the
lock was free on entry and is free again on every exit path of the try
block, the modelled net effect of the finally clause); consequently no
stored session is ever marked settling between calls. -/
theorem c6_settling_lock :
    (∀ (cfg : OdpDeferredEvmSchemeConfig) (keccak : List Nat → String)
        (orc : SettleOracles) (store : OdpStore) (payload : PaymentPayload)
        (req : PaymentRequirements) extras receipt record,
      OdpDeferredEvmScheme.settleChecks1 cfg payload req = .ok (extras, receipt) →
      store receipt.sessionId = some record → record.settling = true →
      OdpDeferredEvmScheme.settle cfg keccak orc store payload req =
        (SOut.ok ⟨false, some "settlement_in_progress", "",
                  payload.accepted.network, some record.approval.payer⟩, store)) ∧
    (∀ (cfg : OdpDeferredEvmSchemeConfig) (keccak : List Nat → String)
        (orc : SettleOracles) (store : OdpStore) (payload : PaymentPayload)
        (req : PaymentRequirements) out store',
      OdpDeferredEvmScheme.settle cfg keccak orc store payload req = (out, store') →
      ∀ sid, store' sid = store sid ∨
        ∃ record rs, store sid = some record ∧ record.settling = false ∧
          store' sid = some { record with receipts := rs, settling := false }) ∧
    (∀ cfg keccak ops, settlingClear (runOps cfg keccak ops)) := by
  refine ⟨settle_inprogress, settle_store_shape, ?_⟩
  intro cfg keccak ops sid r hr
  obtain ⟨s, v, h1, h2, h3, h4, h5, h6⟩ := storeInv_runOps cfg keccak ops sid r hr
  exact h6

/-- C10: verify never reports session_expired (unless the requirement extras
themselves failed to parse with that very message): the deadline check
already enforces deadline at or after now together with deadline at or
before approval.expiry, so the later expiry-below-now branch cannot be
reached, and an expired session surfaces as receipt_deadline_invalid. -/
theorem c10_session_expired_unreachable (cfg : OdpDeferredEvmSchemeConfig)
    (keccak : List Nat → String) (orc : VerifyOracles) (store : OdpStore)
    (payload : PaymentPayload) (req : PaymentRequirements) (out : VOut)
    (store' : OdpStore) (r : VerifyResponse)
    (h : OdpDeferredEvmScheme.verify cfg keccak orc store payload req = (out, store'))
    (hout : out = VOut.ok r)
    (hext : ∀ msg, req.extra = Except.error msg → msg ≠ "session_expired") :
    r.invalidReason ≠ some "session_expired" := by
  intro hreason
  unfold OdpDeferredEvmScheme.verify at h
  split at h
  · rename_i r0 hchk
    cases h
    cases hout
    exact hext "session_expired"
      ((verifyChecks1_error cfg payload req _ hchk).2 hreason) rfl
  · rename_i extras receipt hchk
    split at h
    · cases h; cases hout
    · split at h
      · rename_i v hsp
        cases h
        cases hout
        exact absurd hreason
          (sessionPhase_error keccak orc store payload req extras receipt r hsp).2
      · rename_i approval rec store₁ hsp
        unfold OdpDeferredEvmScheme.verifyPost at h
        split at h
        · rename_i v hpc
          cases h
          cases hout
          exact absurd hreason
            ((verifyPostChecks_error cfg orc approval rec extras receipt req _ hpc) r rfl).2
        · rename_i amt hpc
          cases h
          cases hout
          simp at hreason

/-- Witness for C10: the nonce-skip rejection reports
receipt_nonce_mismatch, not session_expired. -/
theorem c10_witness :
    (⟨false, some "receipt_nonce_mismatch", some "0xpayer"⟩ :
        VerifyResponse).invalidReason ≠ some "session_expired" :=
  c10_session_expired_unreachable cfgA keccakA orcA stE (payloadNextA "5") reqA
    (OdpDeferredEvmScheme.verify cfgA keccakA orcA stE (payloadNextA "5") reqA).1
    (OdpDeferredEvmScheme.verify cfgA keccakA orcA stE (payloadNextA "5") reqA).2
    ⟨false, some "receipt_nonce_mismatch", some "0xpayer"⟩ rfl (by decide)
    (by intro msg hm; simp [reqA] at hm)

/-- C9: for every web-bot-auth verification whose Signature-Input parses
with tag web-bot-auth, a covered-components list missing payment-signature
(respectively signature-agent, or @authority once the earlier components
are present) is rejected with exactly
missing_component_payment-signature (respectively
missing_component_signature-agent, missing_component_@authority),
whatever the environment says about the Ed25519 signature itself. -/
theorem c9_missing_component (env : WbaEnv) (input : VerifyInput)
    (parsed : ParsedSigInput)
    (hp : parseSignatureInput input.signatureInput = .ok parsed)
    (htag : paramsGet parsed.params "tag" = some "web-bot-auth") :
    (parsed.components.contains "payment-signature" = false →
      verifyWebBotAuth env input =
        ⟨false, none, some "missing_component_payment-signature"⟩) ∧
    (parsed.components.contains "payment-signature" = true →
      parsed.components.contains "signature-agent" = false →
      verifyWebBotAuth env input =
        ⟨false, none, some "missing_component_signature-agent"⟩) ∧
    (parsed.components.contains "payment-signature" = true →
      parsed.components.contains "signature-agent" = true →
      parsed.components.contains "@authority" = false →
      verifyWebBotAuth env input =
        ⟨false, none, some "missing_component_@authority"⟩) := by
  refine ⟨?_, ?_, ?_⟩
  · intro hps
    unfold verifyWebBotAuth
    rw [hp]
    dsimp only
    rw [if_neg (by simp [htag]), if_pos (by simpa using hps)]
  · intro hps hsa
    unfold verifyWebBotAuth
    rw [hp]
    dsimp only
    rw [if_neg (by simp [htag]), if_neg (by simpa using hps), if_pos (by simpa using hsa)]
  · intro hps hsa hau
    unfold verifyWebBotAuth
    rw [hp]
    dsimp only
    rw [if_neg (by simp [htag]), if_neg (by simpa using hps), if_neg (by simpa using hsa),
      if_pos (by simpa using hau)]

/-- Witness for C9: the three fixtures each missing one covered component. -/
theorem c9_witness :
    verifyWebBotAuth envW (wbaInput sigInputNoPs) =
      ⟨false, none, some "missing_component_payment-signature"⟩ ∧
    verifyWebBotAuth envW (wbaInput sigInputNoSa) =
      ⟨false, none, some "missing_component_signature-agent"⟩ ∧
    verifyWebBotAuth envW (wbaInput sigInputNoAuth) =
      ⟨false, none, some "missing_component_@authority"⟩ :=
  ⟨(c9_missing_component envW (wbaInput sigInputNoPs) _ rfl (by decide)).1 (by decide),
   (c9_missing_component envW (wbaInput sigInputNoSa) _ rfl (by decide)).2.1
     (by decide) (by decide),
   (c9_missing_component envW (wbaInput sigInputNoAuth) _ rfl (by decide)).2.2
     (by decide) (by decide) (by decide)⟩

theorem window_reject (env : WbaEnv) (input : VerifyInput)
    (parsed : ParsedSigInput) (c e : Int)
    (hp : parseSignatureInput input.signatureInput = .ok parsed)
    (hc : ∃ s, paramsGet parsed.params "created" = some s ∧ s ≠ "" ∧
      parseIntDec? s = some c)
    (he : ∃ s, paramsGet parsed.params "expires" = some s ∧ s ≠ "" ∧
      parseIntDec? s = some e)
    (hc0 : c ≠ 0) (he0 : e ≠ 0)
    (hviol : e - c > 60 ∨ env.now < c - 60 ∨ env.now > e + 60) :
    (verifyWebBotAuth env input).ok = false := by
  obtain ⟨sc, hsc, hscne, hscp⟩ := hc
  obtain ⟨se, hse, hsene, hsep⟩ := he
  unfold verifyWebBotAuth
  rw [hp]
  dsimp only
  rw [hsc, hse]
  dsimp only
  rw [if_neg hscne, if_neg hsene, hscp, hsep]
  dsimp only
  rw [if_pos (⟨hc0, he0⟩ : c ≠ 0 ∧ e ≠ 0)]
  by_cases h60 : e - c > 60
  · rw [if_pos h60]
    dsimp only
    repeat' split
    all_goals rfl
  · rw [if_neg h60]
    have hskew : env.now < c - 60 ∨ env.now > e + 60 := by
      rcases hviol with h | h
      · exact absurd h h60
      · exact h
    rw [if_pos hskew]
    dsimp only
    repeat' split
    all_goals rfl

/-- C8 (counterexample): a signature with created = now - 61 (and
expires - created = 60) is accepted by the verifier, because the skew
tolerance constrains now only against created - 60 and expires + 60, not
created against now - 60. -/
theorem c8_counterexample :
    verifyWebBotAuth envW (wbaInput sigInputLate) = ⟨true, some "k1", none⟩ ∧
    (∃ parsed, parseSignatureInput sigInputLate = .ok parsed ∧
      paramsGet parsed.params "created" = some "999939" ∧
      paramsGet parsed.params "expires" = some "999999") ∧
    envW.now = 1000000 ∧ ((999939 : Int) < 1000000 - 60) :=
  ⟨by decide, ⟨_, rfl, by decide, by decide⟩, rfl, by decide⟩

/-- C8 (amended): when both created and expires are truthy (present,
nonempty, parsing to a nonzero number), every accepted signature satisfies
expires - created ≤ 60 and created - 60 ≤ now ≤ expires + 60; a signature
with created = now - 60 is accepted, and one whose window has wholly
passed (now > expires + 60) is rejected with expired_or_not_yet_valid.
The bound created ≥ now - 60 claimed by the spec is not enforced, and the
window check is skipped entirely when created or expires is absent, empty
or zero. -/
theorem c8_time_window (env : WbaEnv) (input : VerifyInput)
    (parsed : ParsedSigInput) (c e : Int)
    (hp : parseSignatureInput input.signatureInput = .ok parsed)
    (hc : ∃ s, paramsGet parsed.params "created" = some s ∧ s ≠ "" ∧
      parseIntDec? s = some c)
    (he : ∃ s, paramsGet parsed.params "expires" = some s ∧ s ≠ "" ∧
      parseIntDec? s = some e)
    (hc0 : c ≠ 0) (he0 : e ≠ 0)
    (hok : (verifyWebBotAuth env input).ok = true) :
    (e - c ≤ 60 ∧ c - 60 ≤ env.now ∧ env.now ≤ e + 60) ∧
    verifyWebBotAuth envW (wbaInput sigInputOk) = ⟨true, some "k1", none⟩ ∧
    verifyWebBotAuth envW (wbaInput sigInputExpired) =
      ⟨false, none, some "expired_or_not_yet_valid"⟩ := by
  refine ⟨?_, by decide, by decide⟩
  by_cases hviol : e - c > 60 ∨ env.now < c - 60 ∨ env.now > e + 60
  · exact absurd hok
      (by rw [window_reject env input parsed c e hp hc he hc0 he0 hviol]; simp)
  · push_neg at hviol
    exact ⟨by omega, by omega, by omega⟩

/-- Witness for C8: the accepted fixture with created = now - 60 and
expires = now. -/
theorem c8_witness :
    ((1000000 : Int) - 999940 ≤ 60 ∧ (999940 : Int) - 60 ≤ envW.now ∧
      envW.now ≤ 1000000 + 60) ∧
    verifyWebBotAuth envW (wbaInput sigInputOk) = ⟨true, some "k1", none⟩ ∧
    verifyWebBotAuth envW (wbaInput sigInputExpired) =
      ⟨false, none, some "expired_or_not_yet_valid"⟩ :=
  c8_time_window envW (wbaInput sigInputOk) _ 999940 1000000 rfl
    ⟨"999940", by decide, by decide, by decide⟩
    ⟨"1000000", by decide, by decide, by decide⟩
    (by decide) (by decide) (by decide)

theorem asString_data (l : List Char) : (l.asString).data = l := rfl

theorem data_asString (s : String) : (s.data).asString = s := by
  cases s
  rfl

theorem parseStrBody_round : ∀ (s rest : List Char),
    parseStrBody (escChars s ++ '"' :: rest) = some (s, rest) := by
  intro s
  induction s with
  | nil =>
      intro rest
      show parseStrBody ('"' :: rest) = some ([], rest)
      unfold parseStrBody
      rw [if_pos rfl]
  | cons c cs ih =>
      intro rest
      by_cases hc : c = '"' ∨ c = '\\'
      · rw [escChars, if_pos hc]
        show parseStrBody ('\\' :: c :: (escChars cs ++ '"' :: rest)) = _
        unfold parseStrBody
        rw [if_neg (by decide : ¬ (('\\' : Char) = '"')), if_pos rfl]
        show Option.map (fun p => (c :: p.1, p.2))
          (parseStrBody (escChars cs ++ '"' :: rest)) = some (c :: cs, rest)
        rw [ih rest]
        rfl
      · rw [escChars, if_neg hc]
        push_neg at hc
        show parseStrBody (c :: (escChars cs ++ '"' :: rest)) = _
        unfold parseStrBody
        rw [if_neg hc.1, if_neg hc.2]
        show Option.map (fun p => (c :: p.1, p.2))
          (parseStrBody (escChars cs ++ '"' :: rest)) = some (c :: cs, rest)
        rw [ih rest]
        rfl

theorem takeWhile_append_all (p : Char → Bool) : ∀ (l rest : List Char),
    (∀ c ∈ l, p c = true) → (l ++ rest).takeWhile p = l ++ rest.takeWhile p := by
  intro l
  induction l with
  | nil => intro rest _; rfl
  | cons c cs ih =>
      intro rest hall
      rw [List.cons_append, List.takeWhile_cons, hall c (by simp), if_pos rfl]
      rw [ih rest (fun x hx => hall x (by simp [hx]))]
      rfl

theorem dropWhile_append_all (p : Char → Bool) : ∀ (l rest : List Char),
    (∀ c ∈ l, p c = true) → (l ++ rest).dropWhile p = rest.dropWhile p := by
  intro l
  induction l with
  | nil => intro rest _; rfl
  | cons c cs ih =>
      intro rest hall
      rw [List.cons_append, List.dropWhile_cons, hall c (by simp), if_pos rfl]
      exact ih rest (fun x hx => hall x (by simp [hx]))

theorem toDigitsCore_all_digits : ∀ (f n : Nat) (acc : List Char),
    (∀ c ∈ acc, c.isDigit = true) →
    ∀ c ∈ Nat.toDigitsCore 10 f n acc, c.isDigit = true := by
  intro f
  induction f with
  | zero => intro n acc hacc; exact hacc
  | succ f ih =>
      intro n acc hacc c hc
      rw [Nat.toDigitsCore] at hc
      split at hc
      · rcases List.mem_cons.mp hc with h | h
        · rw [h]; exact digitChar_isDigit (n % 10) (Nat.mod_lt n (by omega))
        · exact hacc c h
      · refine ih (n / 10) (Nat.digitChar (n % 10) :: acc) ?_ c hc
        intro x hx
        rcases List.mem_cons.mp hx with h | h
        · rw [h]; exact digitChar_isDigit (n % 10) (Nat.mod_lt n (by omega))
        · exact hacc x h

theorem repr_all_digits (n : Nat) : ∀ c ∈ (Nat.repr n).data, c.isDigit = true := by
  intro c hc
  have : (Nat.repr n).data = Nat.toDigits 10 n := rfl
  rw [this] at hc
  exact toDigitsCore_all_digits (n + 1) n [] (by intro x hx; cases hx) c hc

theorem toDigitsCore_length : ∀ (f n : Nat) (acc : List Char),
    acc.length ≤ (Nat.toDigitsCore 10 f n acc).length := by
  intro f
  induction f with
  | zero => intro n acc; exact le_rfl
  | succ f ih =>
      intro n acc
      rw [Nat.toDigitsCore]
      split
      · simp
      · calc acc.length ≤ (Nat.digitChar (n % 10) :: acc).length := by simp
          _ ≤ _ := ih (n / 10) (Nat.digitChar (n % 10) :: acc)

theorem repr_ne_nil (n : Nat) : (Nat.repr n).data ≠ [] := by
  have : (Nat.repr n).data = Nat.toDigits 10 n := rfl
  rw [this]
  unfold Nat.toDigits
  rw [Nat.toDigitsCore]
  split
  · simp
  · intro h
    have := toDigitsCore_length n (n / 10) [Nat.digitChar (n % 10)]
    rw [h] at this
    simp at this

theorem jsize_pos : ∀ j, 1 ≤ jsize j := by
  intro j
  cases j <;> simp [jsize]

theorem digit_ne_brace (c : Char) (h : c.isDigit = true) : ¬ c = Char.ofNat 123 := by
  intro hc
  rw [hc] at h
  exact absurd h (by decide)

theorem digit_ne_minus (c : Char) (h : c.isDigit = true) : ¬ c = '-' := by
  intro hc
  rw [hc] at h
  exact absurd h (by decide)

theorem digit_ne_rbracket (c : Char) (h : c.isDigit = true) : ¬ c = ']' := by
  intro hc
  rw [hc] at h
  exact absurd h (by decide)

theorem jChars_head : ∀ j : Json, ∃ c t, jChars j = c :: t ∧
    (c.isDigit = true ∨ c = 'n' ∨ c = 't' ∨ c = 'f' ∨ c = '"' ∨ c = '[' ∨
      c = Char.ofNat 123 ∨ c = '-') := by
  intro j
  cases j with
  | null => exact ⟨'n', ['u', 'l', 'l'], rfl, by simp⟩
  | bool b =>
      cases b
      · exact ⟨'f', ['a', 'l', 's', 'e'], rfl, by simp⟩
      · exact ⟨'t', ['r', 'u', 'e'], rfl, by simp⟩
  | num n =>
      cases n with
      | ofNat m =>
          cases hrl : (Nat.repr m).data with
          | nil => exact absurd hrl (repr_ne_nil m)
          | cons d t =>
              refine ⟨d, t, ?_, Or.inl ?_⟩
              · show (Int.repr (Int.ofNat m)).data = d :: t
                rw [show Int.repr (Int.ofNat m) = Nat.repr m from rfl]
                exact hrl
              · exact repr_all_digits m d (by rw [hrl]; simp)
      | negSucc m =>
          refine ⟨'-', (Nat.repr (m + 1)).data, ?_, by simp⟩
          show (Int.repr (Int.negSucc m)).data = '-' :: (Nat.repr (m + 1)).data
          rw [show Int.repr (Int.negSucc m) = "-" ++ Nat.repr (m + 1) from rfl,
            String.data_append]
          rfl
  | str s => exact ⟨'"', escChars s.data ++ ['"'], rfl, by simp⟩
  | arr xs => exact ⟨'[', jCharsList xs ++ [']'], rfl, by simp⟩
  | obj fs =>
      exact ⟨Char.ofNat 123, jCharsFields fs ++ [Char.ofNat 125], rfl, by simp⟩

theorem jChars_head_ne_rbracket (j : Json) : ∃ c t, jChars j = c :: t ∧ ¬ c = ']' := by
  obtain ⟨c, t, hct, hc⟩ := jChars_head j
  refine ⟨c, t, hct, ?_⟩
  rcases hc with h | h | h | h | h | h | h | h
  · exact digit_ne_rbracket c h
  all_goals rw [h]; decide

theorem parseJ_digit (f : Nat) (d : Char) (tail : List Char) (hd : d.isDigit = true) :
    parseJ (f + 1) (d :: tail) =
      (decValAux ((d :: tail).takeWhile Char.isDigit) 0).map
        (fun v => (.num (v : Int), (d :: tail).dropWhile Char.isDigit)) := by
  unfold parseJ
  split
  all_goals first
  | (rename_i heq
     injection heq with h1 h2
     rw [h1] at hd
     exact Bool.noConfusion hd)
  | (rename_i heq
     exact List.noConfusion heq)
  | (rename_i heq
     injection heq with h1 h2
     subst h1
     subst h2
     rw [if_neg (digit_ne_brace d hd), if_neg (digit_ne_minus d hd), if_pos hd]
     cases decValAux ((d :: tail).takeWhile Char.isDigit) 0 <;> rfl)

theorem parseJ_minus (f : Nat) (tail : List Char) :
    parseJ (f + 1) ('-' :: tail) =
      match tail.takeWhile Char.isDigit with
      | [] => none
      | ds => (decValAux ds 0).map
          (fun v => (Json.num (-(v : Int)), tail.dropWhile Char.isDigit)) := rfl

theorem parseJ_objCons (f : Nat) (t : List Char) :
    parseJ (f + 1) (Char.ofNat 123 :: '"' :: t) =
      (parseFields f ('"' :: t)).map (fun p => (Json.obj p.1, p.2)) := rfl

theorem parseElems_step (f : Nat) (l : List Char) :
    parseElems (f + 1) l =
      match parseJ f l with
      | none => none
      | some (v, rest) =>
          match rest with
          | ',' :: rest2 => (parseElems f rest2).map (fun p => (JsonList.cons v p.1, p.2))
          | ']' :: rest2 => some (JsonList.cons v JsonList.nil, rest2)
          | _ => none := rfl

theorem parseFields_step (f : Nat) (t : List Char) :
    parseFields (f + 1) ('"' :: t) =
      match parseStrBody t with
      | none => none
      | some (k, rest1) =>
          match rest1 with
          | ':' :: rest2 =>
              match parseJ f rest2 with
              | none => none
              | some (v, rest3) =>
                  match rest3 with
                  | ',' :: rest4 =>
                      (parseFields f rest4).map
                        (fun p => (JsonFields.cons k.asString v p.1, p.2))
                  | c :: rest4 =>
                      if c = Char.ofNat 125 then
                        some (JsonFields.cons k.asString v JsonFields.nil, rest4)
                      else none
                  | [] => none
          | _ => none := rfl

theorem parseJ_bracket (f : Nat) (c : Char) (t : List Char) (hc : ¬ c = ']') :
    parseJ (f + 1) ('[' :: c :: t) =
      (parseElems f (c :: t)).map (fun p => (Json.arr p.1, p.2)) := by
  unfold parseJ
  split
  all_goals first
  | (rename_i heq
     injection heq with h1 h2
     exact absurd h1 (of_decide_eq_false rfl))
  | (rename_i heq
     exact List.noConfusion heq)
  | (rename_i hax heq
     injection heq with h1 h2
     exact (hax h1.symm).elim)
  | (rename_i heq
     injection heq with h1 h2
     injection h2 with h3 h4
     exact absurd h3 hc)
  | (rename_i heq
     injection heq with h1 h2
     subst h2
     rfl)

theorem jParse_round : ∀ fuel : Nat,
    (∀ (j : Json) (rest : List Char), jsize j < fuel →
      (∀ c, rest.head? = some c → c.isDigit = false) →
      parseJ fuel (jChars j ++ rest) = some (j, rest)) ∧
    (∀ (x : Json) (xs : JsonList) (rest : List Char),
      jsizeL (JsonList.cons x xs) < fuel →
      parseElems fuel (jCharsList (JsonList.cons x xs) ++ ']' :: rest) =
        some (JsonList.cons x xs, rest)) ∧
    (∀ (k : String) (v : Json) (fs : JsonFields) (rest : List Char),
      jsizeF (JsonFields.cons k v fs) < fuel →
      parseFields fuel (jCharsFields (JsonFields.cons k v fs) ++ Char.ofNat 125 :: rest) =
        some (JsonFields.cons k v fs, rest)) := by
  intro fuel
  induction fuel using Nat.strong_induction_on with
  | _ fuel ih =>
  refine ⟨?_, ?_, ?_⟩
  · intro j rest hsz hrest
    obtain ⟨f, rfl⟩ : ∃ f, fuel = f + 1 := ⟨fuel - 1, by have := jsize_pos j; omega⟩
    have htw : rest.takeWhile Char.isDigit = [] := by
      cases rest with
      | nil => rfl
      | cons c0 r0 => simp [List.takeWhile_cons, hrest c0 rfl]
    have hdw : rest.dropWhile Char.isDigit = rest := by
      cases rest with
      | nil => rfl
      | cons c0 r0 => simp [List.dropWhile_cons, hrest c0 rfl]
    cases j with
    | null =>
        rw [show jChars Json.null ++ rest = 'n' :: 'u' :: 'l' :: 'l' :: rest from rfl]
        rfl
    | bool b =>
        cases b
        · rw [show jChars (Json.bool false) ++ rest =
            'f' :: 'a' :: 'l' :: 's' :: 'e' :: rest from rfl]
          rfl
        · rw [show jChars (Json.bool true) ++ rest =
            't' :: 'r' :: 'u' :: 'e' :: rest from rfl]
          rfl
    | str s =>
        rw [show jChars (Json.str s) ++ rest =
          '"' :: (escChars s.data ++ '"' :: rest) from by simp [jChars]]
        show (parseStrBody (escChars s.data ++ '"' :: rest)).map
          (fun p => (Json.str p.1.asString, p.2)) = some (Json.str s, rest)
        rw [parseStrBody_round]
        simp [data_asString]
    | num n =>
        cases n with
        | ofNat m =>
            cases hrl : (Nat.repr m).data with
            | nil => exact absurd hrl (repr_ne_nil m)
            | cons d t =>
                have hdig : d.isDigit = true := repr_all_digits m d (by rw [hrl]; simp)
                have e1 : jChars (Json.num (Int.ofNat m)) ++ rest = d :: (t ++ rest) := by
                  rw [show jChars (Json.num (Int.ofNat m)) = (Nat.repr m).data from rfl,
                    hrl]
                  rfl
                rw [e1, parseJ_digit f d (t ++ rest) hdig]
                have e2 : d :: (t ++ rest) = (Nat.repr m).data ++ rest := by
                  rw [hrl]
                  rfl
                rw [e2, takeWhile_append_all _ _ _ (repr_all_digits m),
                  dropWhile_append_all _ _ _ (repr_all_digits m), htw, hdw,
                  List.append_nil,
                  show decValAux (Nat.repr m).data 0 = some m from bigInt?_repr m]
                rfl
        | negSucc m =>
            have e1 : jChars (Json.num (Int.negSucc m)) ++ rest =
                '-' :: ((Nat.repr (m + 1)).data ++ rest) := by
              rw [show jChars (Json.num (Int.negSucc m)) =
                '-' :: (Nat.repr (m + 1)).data from by
                  show (Int.repr (Int.negSucc m)).data = _
                  rw [show Int.repr (Int.negSucc m) = "-" ++ Nat.repr (m + 1) from rfl,
                    String.data_append]
                  rfl]
              rfl
            rw [e1, parseJ_minus f ((Nat.repr (m + 1)).data ++ rest),
              takeWhile_append_all _ _ _ (repr_all_digits (m + 1)), htw,
              List.append_nil,
              dropWhile_append_all _ _ _ (repr_all_digits (m + 1)), hdw]
            cases hrl : (Nat.repr (m + 1)).data with
            | nil => exact absurd hrl (repr_ne_nil (m + 1))
            | cons d t =>
                show (decValAux (d :: t) 0).map
                  (fun v => (Json.num (-(v : Int)), rest)) =
                  some (Json.num (Int.negSucc m), rest)
                rw [← hrl,
                  show decValAux (Nat.repr (m + 1)).data 0 = some (m + 1) from
                    bigInt?_repr (m + 1)]
                rfl
    | arr xs =>
        cases xs with
        | nil =>
            rw [show jChars (Json.arr JsonList.nil) ++ rest = '[' :: ']' :: rest from rfl]
            rfl
        | cons x xs =>
            obtain ⟨c, t, hct, hcne⟩ := jChars_head_ne_rbracket x
            have hlist : ∃ t2, jCharsList (JsonList.cons x xs) = c :: t2 := by
              cases xs with
              | nil =>
                  exact ⟨t, by rw [show jCharsList (JsonList.cons x JsonList.nil) =
                    jChars x from rfl, hct]⟩
              | cons y ys =>
                  refine ⟨t ++ ',' :: jCharsList (JsonList.cons y ys), ?_⟩
                  rw [show jCharsList (JsonList.cons x (JsonList.cons y ys)) =
                    jChars x ++ ',' :: jCharsList (JsonList.cons y ys) from rfl, hct]
                  rfl
            obtain ⟨t2, ht2⟩ := hlist
            have e1 : jChars (Json.arr (JsonList.cons x xs)) ++ rest =
                '[' :: c :: (t2 ++ ']' :: rest) := by
              rw [show jChars (Json.arr (JsonList.cons x xs)) =
                '[' :: (jCharsList (JsonList.cons x xs) ++ [']']) from rfl, ht2]
              simp
            have hsze : jsizeL (JsonList.cons x xs) < f := by
              simp only [jsize] at hsz
              omega
            rw [e1, parseJ_bracket f c (t2 ++ ']' :: rest) hcne,
              show c :: (t2 ++ ']' :: rest) =
                jCharsList (JsonList.cons x xs) ++ ']' :: rest from by rw [ht2]; rfl,
              (ih f (by omega)).2.1 x xs rest hsze]
            rfl
    | obj fs =>
        cases fs with
        | nil =>
            rw [show jChars (Json.obj JsonFields.nil) ++ rest =
              Char.ofNat 123 :: Char.ofNat 125 :: rest from rfl]
            rfl
        | cons k v fs =>
            have hfld : ∃ t2, jCharsFields (JsonFields.cons k v fs) = '"' :: t2 := by
              cases fs with
              | nil => exact ⟨escChars k.data ++ '"' :: ':' :: jChars v, rfl⟩
              | cons k2 v2 fs2 =>
                  exact ⟨(escChars k.data ++ '"' :: ':' :: jChars v) ++
                    ',' :: jCharsFields (JsonFields.cons k2 v2 fs2), rfl⟩
            obtain ⟨t2, ht2⟩ := hfld
            have e1 : jChars (Json.obj (JsonFields.cons k v fs)) ++ rest =
                Char.ofNat 123 :: '"' :: (t2 ++ Char.ofNat 125 :: rest) := by
              rw [show jChars (Json.obj (JsonFields.cons k v fs)) =
                Char.ofNat 123 ::
                  (jCharsFields (JsonFields.cons k v fs) ++ [Char.ofNat 125]) from rfl,
                ht2]
              simp
            have hszf : jsizeF (JsonFields.cons k v fs) < f := by
              simp only [jsize] at hsz
              omega
            rw [e1, parseJ_objCons f (t2 ++ Char.ofNat 125 :: rest),
              show ('"' : Char) :: (t2 ++ Char.ofNat 125 :: rest) =
                jCharsFields (JsonFields.cons k v fs) ++ Char.ofNat 125 :: rest from by
                  rw [ht2]; rfl,
              (ih f (by omega)).2.2 k v fs rest hszf]
            rfl
  · intro x xs rest hsz
    obtain ⟨f, rfl⟩ : ∃ f, fuel = f + 1 := ⟨fuel - 1, by omega⟩
    rw [parseElems_step]
    cases xs with
    | nil =>
        have hszx : jsize x < f := by
          simp only [jsizeL] at hsz
          omega
        rw [show jCharsList (JsonList.cons x JsonList.nil) ++ ']' :: rest =
          jChars x ++ ']' :: rest from rfl,
          (ih f (by omega)).1 x (']' :: rest) hszx
            (by intro c0 hc0; cases hc0; rfl)]
        rfl
    | cons y ys =>
        have hszx : jsize x < f := by
          have := jsize_pos y
          simp only [jsizeL] at hsz
          omega
        have hszy : jsizeL (JsonList.cons y ys) < f := by
          have := jsize_pos x
          simp only [jsizeL] at hsz ⊢
          omega
        rw [show jCharsList (JsonList.cons x (JsonList.cons y ys)) ++ ']' :: rest =
          jChars x ++ ',' :: (jCharsList (JsonList.cons y ys) ++ ']' :: rest) from by
            rw [show jCharsList (JsonList.cons x (JsonList.cons y ys)) =
              jChars x ++ ',' :: jCharsList (JsonList.cons y ys) from rfl]
            simp,
          (ih f (by omega)).1 x (',' :: (jCharsList (JsonList.cons y ys) ++ ']' :: rest))
            hszx (by intro c0 hc0; cases hc0; rfl)]
        simp only [(ih f (by omega)).2.1 y ys rest hszy, Option.map_some]
        rfl
  · intro k v fs rest hsz
    obtain ⟨f, rfl⟩ : ∃ f, fuel = f + 1 := ⟨fuel - 1, by omega⟩
    cases fs with
    | nil =>
        have hszv : jsize v < f := by
          simp only [jsizeF] at hsz
          omega
        rw [show jCharsFields (JsonFields.cons k v JsonFields.nil) ++
            Char.ofNat 125 :: rest =
          '"' :: (escChars k.data ++ '"' ::
            (':' :: (jChars v ++ Char.ofNat 125 :: rest))) from by
            rw [show jCharsFields (JsonFields.cons k v JsonFields.nil) =
              '"' :: (escChars k.data ++ '"' :: ':' :: jChars v) from rfl]
            simp,
          parseFields_step f, parseStrBody_round k.data]
        simp only [(ih f (by omega)).1 v (Char.ofNat 125 :: rest) hszv
          (by intro c0 hc0; cases hc0; rfl)]
        show some (JsonFields.cons (k.data).asString v JsonFields.nil, rest) =
          some (JsonFields.cons k v JsonFields.nil, rest)
        rw [data_asString]
    | cons k2 v2 fs2 =>
        have hszv : jsize v < f := by
          have := jsize_pos v2
          simp only [jsizeF] at hsz
          omega
        have hszr : jsizeF (JsonFields.cons k2 v2 fs2) < f := by
          have := jsize_pos v
          simp only [jsizeF] at hsz ⊢
          omega
        rw [show jCharsFields (JsonFields.cons k v (JsonFields.cons k2 v2 fs2)) ++
            Char.ofNat 125 :: rest =
          '"' :: (escChars k.data ++ '"' :: (':' :: (jChars v ++ ',' ::
            (jCharsFields (JsonFields.cons k2 v2 fs2) ++
              Char.ofNat 125 :: rest)))) from by
            rw [show jCharsFields (JsonFields.cons k v (JsonFields.cons k2 v2 fs2)) =
              ('"' :: (escChars k.data ++ '"' :: ':' :: jChars v)) ++
                ',' :: jCharsFields (JsonFields.cons k2 v2 fs2) from rfl]
            simp,
          parseFields_step f, parseStrBody_round k.data]
        simp only [(ih f (by omega)).1 v (',' ::
            (jCharsFields (JsonFields.cons k2 v2 fs2) ++ Char.ofNat 125 :: rest))
          hszv (by intro c0 hc0; cases hc0; rfl)]
        simp only [(ih f (by omega)).2.2 k2 v2 fs2 rest hszr, Option.map_some]
        rw [data_asString]
        rfl

theorem jChars_inj (a b : Json) (h : jChars a = jChars b) : a = b := by
  have ha := (jParse_round (jsize a + jsize b + 1)).1 a []
    (by have := jsize_pos b; omega) (by intro c hc; cases hc)
  have hb := (jParse_round (jsize a + jsize b + 1)).1 b []
    (by have := jsize_pos a; omega) (by intro c hc; cases hc)
  rw [h] at ha
  rw [ha] at hb
  have h1 := Option.some.inj hb
  exact congrArg Prod.fst h1

theorem stringify_inj (a b : Json) (h : stringify a = stringify b) : a = b := by
  apply jChars_inj
  have h2 := congrArg String.data h
  rw [show (stringify a).data = jChars a from asString_data _,
    show (stringify b).data = jChars b from asString_data _] at h2
  exact h2

mutual
theorem normalize_eq_spec : ∀ j : Json, Json.normalize j = specNormalize j
  | .null => rfl
  | .bool b => rfl
  | .num n => rfl
  | .str s => rfl
  | .arr xs => by rw [Json.normalize, specNormalize, normalizeList_eq_spec xs]
  | .obj fs => by rw [Json.normalize, specNormalize, normalizeFields_eq_spec fs]

theorem normalizeList_eq_spec : ∀ xs : JsonList,
    Json.normalizeList xs = specNormalizeList xs
  | .nil => rfl
  | .cons x xs => by
      rw [Json.normalizeList, specNormalizeList, normalize_eq_spec x,
        normalizeList_eq_spec xs]

theorem normalizeFields_eq_spec : ∀ fs : JsonFields,
    Json.normalizeFields fs = specNormalizeFields fs
  | .nil => rfl
  | .cons k v fs => by
      rw [Json.normalizeFields, specNormalizeFields, normalize_eq_spec v,
        normalizeFields_eq_spec fs]
end

theorem deepEqual_iff (a b : Json) : deepEqual a b = true ↔ specDeepEqual a b := by
  unfold deepEqual specDeepEqual
  constructor
  · intro h
    rw [beq_iff_eq] at h
    have := stringify_inj _ _ h
    rw [← normalize_eq_spec a, ← normalize_eq_spec b]
    exact this
  · intro h
    rw [beq_iff_eq]
    show stringify (Json.normalize a) = stringify (Json.normalize b)
    rw [normalize_eq_spec a, normalize_eq_spec b, h]

/-- C7: the structural binding of the credit-scheme verify holds exactly
when payload.accepted deep-equals the requirements under recursive
key-sorting normalization with arrays kept in order (the implementation's
stringify-compare coincides with the spec's normalize-equality); a failed
binding returns requirements_mismatch with the web-bot-auth verifier never
invoked, the verifier is only ever invoked when the binding holds, and
when it holds with a well-formed web-bot-auth extension verification
proceeds to the verifier. -/
theorem c7_structural_binding :
    (∀ a b, deepEqual a b = true ↔ specDeepEqual a b) ∧
    (∀ (env : WbaEnv) (fallbackHeader : String) (payload : FluxaPaymentPayload)
        (requirements : Json),
      deepEqual payload.accepted requirements = false →
      FluxaCreditFacilitatorScheme.verify env fallbackHeader payload requirements =
        (⟨false, some "requirements_mismatch", none⟩, false)) ∧
    (∀ (env : WbaEnv) (fallbackHeader : String) (payload : FluxaPaymentPayload)
        (requirements : Json) (out : VerifyResponse) (invoked : Bool),
      FluxaCreditFacilitatorScheme.verify env fallbackHeader payload requirements =
        (out, invoked) → invoked = true →
      deepEqual payload.accepted requirements = true) ∧
    (∀ (env : WbaEnv) (fallbackHeader : String) (payload : FluxaPaymentPayload)
        (requirements : Json) (wba : WebBotAuthExt),
      deepEqual payload.accepted requirements = true →
      payload.extensions = some wba →
      wba.signatureAgent.getD "" ≠ "" → wba.signatureInput.getD "" ≠ "" →
      wba.signature.getD "" ≠ "" →
      (FluxaCreditFacilitatorScheme.verify env fallbackHeader payload
        requirements).2 = true) := by
  refine ⟨deepEqual_iff, ?_, ?_, ?_⟩
  · intro env fb payload reqs hne
    unfold FluxaCreditFacilitatorScheme.verify
    rw [if_pos (by simp [hne])]
  · intro env fb payload reqs out invoked h hinv
    by_contra hde
    rw [Bool.not_eq_true] at hde
    unfold FluxaCreditFacilitatorScheme.verify at h
    rw [if_pos (by simp [hde])] at h
    cases h
    exact Bool.noConfusion hinv
  · intro env fb payload reqs wba hde hext ha hi hs
    unfold FluxaCreditFacilitatorScheme.verify
    rw [if_neg (by simp [hde]), hext]
    show (if wba.signatureAgent.getD "" = "" ∨ wba.signatureInput.getD "" = "" ∨
        wba.signature.getD "" = "" then
      ((⟨false, some "invalid_web_bot_auth", none⟩ : VerifyResponse), false)
      else _).2 = true
    rw [if_neg (by simp [ha, hi, hs])]
    split <;> (dsimp only; rw [apply_ite Prod.snd]; simp)
